import Mathlib

/-!
Verification of the CIMA WebDrops data-acquisition client
(`adl_cimawebdrops_plugin`): a shallow embedding, in Lean 4, of the
pure computational core of `client.py` and `plugins.py`, together with
theorems settling the specified properties.

Modelling conventions:
- Python strings are Lean `String`s; Python string operations
  (`split`, `strip`, comparison) are re-implemented on `List Char`
  so that everything reduces inside the kernel.  Python compares
  strings by code points, which is exactly the order implemented here.
- Python dicts are insertion-ordered association lists
  (`List (κ × β)`): assignment updates in place when the key exists
  and appends otherwise, matching CPython semantics.
- Python sets are lists without duplicates (insertion adds an absent
  element at the end); the program only ever observes sets through
  `sorted(...)`, so the internal order is irrelevant.
- Geographic coordinates are floats in the source, rounded to 5
  decimal places before any use.  Float rounding itself is not
  embeddable; coordinates are modelled as the already-rounded values,
  scaled to integers (`Coord := Int`).  Every use of a coordinate in
  the source after the rounding step (dictionary key, output field,
  station-id formatting, sort key) factors through the rounded value,
  so the claims under study are unaffected.
- Sensor readings are floats in the source but are only ever moved
  around, never computed with; they are modelled as `Int`.
- Network and cache effects are made explicit: upstream responses are
  oracle parameters, fallible calls return `Except`, and the number of
  upstream HTTP requests performed is threaded as an explicit counter.
-/

/-! ## Character-level string operations -/

/-- Lexicographic comparison of char lists by code point, the order in
which Python compares `str` values. -/
def charsLe : List Char → List Char → Bool
  | [], _ => true
  | _ :: _, [] => false
  | a :: as, b :: bs =>
    if a.toNat < b.toNat then true
    else if b.toNat < a.toNat then false
    else charsLe as bs

/-- Python `s <= t` on strings (code-point lexicographic order). -/
def strLe (s t : String) : Bool := charsLe s.data t.data

/-- Python `s < t` on strings. -/
def strLt (s t : String) : Bool := strLe s t && !(s = t)

/-- Python `str.split(sep)` for a one-character separator, on char
lists: `"a:b" ↦ [a-part, b-part]`, `"TERMOMETRO" ↦ [whole]`,
`"a:b:c" ↦ three parts`. -/
def splitOnChar (c : Char) : List Char → List (List Char)
  | [] => [[]]
  | x :: xs =>
    match splitOnChar c xs with
    | [] => [[]]
    | g :: gs => if x = c then [] :: g :: gs else (x :: g) :: gs

/-- Python `str.strip()`: drop whitespace from both ends. -/
def stripChars (cs : List Char) : List Char :=
  ((cs.dropWhile Char.isWhitespace).reverse.dropWhile Char.isWhitespace).reverse

/-- Python truthiness of an optional string: `None` and `""` are falsy. -/
def truthyStr : Option String → Bool
  | none => false
  | some s => !s.data.isEmpty

/-- Decidable equality for `Except`, used to evaluate the models on
concrete inputs. -/
instance {ε α : Type} [DecidableEq ε] [DecidableEq α] : DecidableEq (Except ε α)
  | .ok a, .ok b => decidable_of_iff (a = b) (by simp)
  | .error a, .error b => decidable_of_iff (a = b) (by simp)
  | .ok _, .error _ => isFalse (fun h => Except.noConfusion h)
  | .error _, .ok _ => isFalse (fun h => Except.noConfusion h)

/-! ## Association lists with Python dict semantics -/

/-- Python `d.get(k)` / `d[k]`: first (and, for the lists built here,
only) binding of `k`. -/
def getA {κ β : Type} [DecidableEq κ] (k : κ) : List (κ × β) → Option β
  | [] => none
  | (k2, v) :: rest => if k2 = k then some v else getA k rest

/-- Python `d[k] = v`: update in place when present, append otherwise. -/
def setA {κ β : Type} [DecidableEq κ] (k : κ) (v : β) : List (κ × β) → List (κ × β)
  | [] => [(k, v)]
  | (k2, v2) :: rest => if k2 = k then (k2, v) :: rest else (k2, v2) :: setA k v rest

/-- Apply `f` to the value bound to `k`, in place (models mutating the
dict entry through `d[k]`; keys are unique in every dict built here,
so rewriting the first binding is the mutation). -/
def modifyA {κ β : Type} [DecidableEq κ] (k : κ) (f : β → β) : List (κ × β) → List (κ × β)
  | [] => []
  | (k2, v) :: rest => if k2 = k then (k2, f v) :: rest else (k2, v) :: modifyA k f rest

/-- Python `set.add`: append when absent. -/
def addToSet (x : String) (s : List String) : List String :=
  if x ∈ s then s else s ++ [x]

/-- Python `dict(pairs)`: left fold of dict assignment over the pairs. -/
def dictOfPairs {κ β : Type} [DecidableEq κ] (l : List (κ × β)) : List (κ × β) :=
  l.foldl (fun d p => setA p.1 p.2 d) []

/-! ## Timestamp parsing (`datetime.strptime`) -/

/-- A parsed timestamp, as produced by `datetime.strptime`; fields the
format does not mention default to zero, as in Python. -/
structure DateTimeM where
  year : Nat
  month : Nat
  day : Nat
  hour : Nat
  minute : Nat
  second : Nat
deriving DecidableEq, Repr

/-- Numeric value of a decimal digit character. -/
def digitVal (c : Char) : Nat := c.toNat - 48

/-- Value of a two-digit field. -/
def twoDig (a b : Char) : Nat := 10 * digitVal a + digitVal b

/-- Range checks performed by `strptime` on the directive values. -/
def dtFieldsOk (mo d h mi s : Nat) : Bool :=
  decide (1 ≤ mo) && decide (mo ≤ 12) && decide (1 ≤ d) && decide (d ≤ 31) &&
  decide (h ≤ 23) && decide (mi ≤ 59) && decide (s ≤ 61)

/-- Model of `datetime.strptime(s, "%Y%m%d%H%M")`: exactly twelve
digits with in-range month, day, hour and minute; `None` models the
`ValueError` raised on any other input. -/
def parseCompact (s : String) : Option DateTimeM :=
  match s.data with
  | [y1, y2, y3, y4, o1, o2, d1, d2, h1, h2, i1, i2] =>
    if [y1, y2, y3, y4, o1, o2, d1, d2, h1, h2, i1, i2].all Char.isDigit then
      let year := 1000 * digitVal y1 + 100 * digitVal y2 + 10 * digitVal y3 + digitVal y4
      let mo := twoDig o1 o2
      let d := twoDig d1 d2
      let h := twoDig h1 h2
      let mi := twoDig i1 i2
      if dtFieldsOk mo d h mi 0 then some ⟨year, mo, d, h, mi, 0⟩ else none
    else none
  | _ => none

/-- Model of `datetime.strptime(s, "%Y-%m-%dT%H:%M:%SZ")`: the exact
twenty-character ISO-8601 shape; `None` models the `ValueError`. -/
def parseISO (s : String) : Option DateTimeM :=
  match s.data with
  | [y1, y2, y3, y4, a1, o1, o2, a2, d1, d2, t1, h1, h2, c1, i1, i2, c2, s1, s2, z1] =>
    if [y1, y2, y3, y4, o1, o2, d1, d2, h1, h2, i1, i2, s1, s2].all Char.isDigit &&
        (a1 = '-' : Bool) && (a2 = '-' : Bool) && (t1 = 'T' : Bool) &&
        (c1 = ':' : Bool) && (c2 = ':' : Bool) && (z1 = 'Z' : Bool) then
      let year := 1000 * digitVal y1 + 100 * digitVal y2 + 10 * digitVal y3 + digitVal y4
      let mo := twoDig o1 o2
      let d := twoDig d1 d2
      let h := twoDig h1 h2
      let mi := twoDig i1 i2
      let sec := twoDig s1 s2
      if dtFieldsOk mo d h mi sec then some ⟨year, mo, d, h, mi, sec⟩ else none
    else none
  | _ => none

/-- The format dispatch in `get_data_for_sensors` (client.py lines
308-312): compact when `date_as_string` is set, ISO-8601 otherwise. -/
def parseFor (date_as_string : Bool) (s : String) : Option DateTimeM :=
  if date_as_string then parseCompact s else parseISO s

/-! ## Token manager (`CimaWebDropsClient._ensure_token`, client.py 29-50) -/

/-- The in-memory token slot of a client instance
(`_access_token`, `_token_expiry_epoch`). -/
structure TokenState where
  access_token : Option String
  token_expiry_epoch : Int
deriving DecidableEq, Repr

/-- Body of a successful token-endpoint response; `expires_in` is
`none` when the identity provider omits the field. -/
structure TokenResp where
  access_token : String
  expires_in : Option Int
deriving DecidableEq, Repr

/-- Model of `_ensure_token`.  `now` is the sampled clock,
`resp` the outcome of the password-grant POST (performed only when
needed).  Returns the new token slot and whether a refresh request was
performed; `Except.error` models `raise_for_status` propagating. -/
def ensure_token (now : Int) (resp : Except Unit TokenResp) (st : TokenState) :
    Except Unit (TokenState × Bool) :=
  if truthyStr st.access_token && decide (now < st.token_expiry_epoch - 30) then
    .ok (st, false)
  else
    match resp with
    | .error e => .error e
    | .ok r =>
      .ok ({ access_token := some r.access_token,
             token_expiry_epoch := now + r.expires_in.getD 300 }, true)

/-! ## Station id (`generate_station_id`, client.py 8-13) -/

/-- Decimal digits of a natural number, by fuel-bounded division so
that the definition reduces inside the kernel; `fuel` at least the
digit count makes it exact. -/
def natDigitsAux : Nat → Nat → List Char
  | 0, _ => []
  | fuel + 1, n =>
    if n = 0 then [] else natDigitsAux fuel (n / 10) ++ [Char.ofNat (48 + n % 10)]

/-- Decimal digits of a natural number. -/
def natDigits (n : Nat) : List Char :=
  if n = 0 then ['0'] else natDigitsAux (n + 1) n

/-- Decimal rendering of an integer (scaled rounded coordinate). -/
def intStr (i : Int) : String :=
  match i with
  | .ofNat n => String.mk (natDigits n)
  | .negSucc n => String.mk ('-' :: natDigits (n + 1))

/-- Coordinates after the source's `round(float(x), 5)`, scaled to
integers (see the module comment). -/
abbrev Coord := Int

/-- Model of `generate_station_id`: the fixed-width decimal rendering
of the two rounded coordinates joined by an underscore.  On the scaled
integer model this is the decimal rendering of each coordinate. -/
def generate_station_id (lat lng : Coord) : String :=
  intStr lat ++ "_" ++ intStr lng

/-! ## Station aggregation
(`CimaWebDropsClient.get_unique_stations_with_parameters`, client.py 94-179) -/

/-- An upstream raw sensor record, with `Option` for fields the JSON
object may lack (`s.get(...)` returning `None`). -/
structure RawSensor where
  name : Option String
  lat : Option Coord
  lng : Option Coord
  mu : Option String
  id : Option String
deriving DecidableEq, Repr

/-- Per-class accumulator inside a station entry
(`{"unit": mu, "sensor_ids": set()}`, client.py 153-156). -/
structure ParamMeta where
  unit : Option String
  sensor_ids : List String
deriving DecidableEq, Repr

/-- A value of the in-progress `stations_index` dict (client.py
141-147); `parameters` is the inner class-keyed dict. -/
structure StationEntry where
  station_id : String
  station_name : String
  lat : Coord
  lng : Coord
  parameters : List (String × ParamMeta)
deriving DecidableEq, Repr

/-- An element of the final `parameters` list (client.py 169-173). -/
structure ParamOut where
  cls : String
  unit : Option String
  sensor_ids : List String
deriving DecidableEq, Repr

/-- An element of the aggregated station list (docstring shape,
client.py 98-115). -/
structure StationOut where
  station_id : String
  station_name : String
  lat : Coord
  lng : Coord
  parameters : List ParamOut
deriving DecidableEq, Repr

/-- `(s.get("name") or "").strip()` (client.py 123). -/
def cleanName (name : Option String) : String :=
  String.mk (stripChars (name.getD "").data)

/-- The fresh station entry created on first sight of a coordinate key
(client.py 140-147). -/
def mkStationEntry (lat lng : Coord) (name : String) : StationEntry :=
  { station_id := generate_station_id lat lng,
    station_name := name, lat := lat, lng := lng, parameters := [] }

/-- Lines 151-162 of client.py: merge one sensor of class
`sensor_class` into the parameter dict of its station entry. -/
def updateEntryParams (sensor_class : String) (s : RawSensor) (ps : List (String × ParamMeta)) :
    List (String × ParamMeta) :=
  let ps1 := if (getA sensor_class ps).isSome then ps
             else setA sensor_class ⟨s.mu, []⟩ ps
  let ps2 := modifyA sensor_class
    (fun m => if truthyStr s.mu && !truthyStr m.unit then { m with unit := s.mu } else m) ps1
  match s.id with
  | some sid =>
    if sid.data.isEmpty then ps2
    else modifyA sensor_class
      (fun m => { m with sensor_ids := addToSet sid m.sensor_ids }) ps2
  | none => ps2

/-- Merge one sensor into its station entry (only the parameter dict
of the entry is ever mutated). -/
def updateEntry (sensor_class : String) (s : RawSensor) (st : StationEntry) : StationEntry :=
  { st with parameters := updateEntryParams sensor_class s st.parameters }

/-- Body of the aggregation loop (client.py 122-162) for one
`(sensor_class, sensor)` pair: skip when `lat` or `lng` is missing,
otherwise create the station entry if absent and merge the sensor in. -/
def aggStep (idx : List ((Coord × Coord) × StationEntry)) (p : String × RawSensor) :
    List ((Coord × Coord) × StationEntry) :=
  match p.2.lat, p.2.lng with
  | some lat, some lng =>
    let key := (lat, lng)
    let idx1 := if (getA key idx).isSome then idx
                else setA key (mkStationEntry lat lng (cleanName p.2.name)) idx
    modifyA key (updateEntry p.1 p.2) idx1
  | _, _ => idx

/-- The `stations_index` dict after the aggregation loop: left fold of
`aggStep` over the flattened `(class, sensor)` pairs. -/
def buildIndex (pairs : List (String × RawSensor)) : List ((Coord × Coord) × StationEntry) :=
  pairs.foldl aggStep []

/-- Sorting relation on parameter items: `sorted(items, key=kv[0])`. -/
def paramItemLe (a b : String × ParamMeta) : Prop := strLe a.1 b.1 = true

instance : DecidableRel paramItemLe := fun _ _ => decEq _ _

/-- String sorting as a `Prop` relation (for `sorted(sensor_ids)`). -/
def strLeP (a b : String) : Prop := strLe a b = true

instance : DecidableRel strLeP := fun _ _ => decEq _ _

/-- Sorting relation for the final station list:
`key=lambda x: (x["station_name"], x["lat"], x["lng"])`. -/
def stationLe (a b : StationOut) : Prop :=
  (strLt a.station_name b.station_name ||
    ((a.station_name = b.station_name : Bool) &&
      (decide (a.lat < b.lat) ||
        ((a.lat = b.lat : Bool) && decide (a.lng ≤ b.lng))))) = true

instance : DecidableRel stationLe := fun _ _ => decEq _ _

/-- Lines 167-174 of client.py: materialize one station entry —
parameter items sorted by class name, sensor-id sets sorted. -/
def finalizeEntry (st : StationEntry) : StationOut :=
  { station_id := st.station_id, station_name := st.station_name,
    lat := st.lat, lng := st.lng,
    parameters := (List.insertionSort paramItemLe st.parameters).map
      (fun kv => ⟨kv.1, kv.2.unit, List.insertionSort strLeP kv.2.sensor_ids⟩) }

/-- The station aggregator on its raw input: fold the pairs into
`stations_index`, materialize the values, and sort the stations for
consistent output (client.py 164-179). -/
def aggregatePairs (pairs : List (String × RawSensor)) : List StationOut :=
  List.insertionSort stationLe ((buildIndex pairs).map (fun kv => finalizeEntry kv.2))

/-- `get_unique_stations_with_parameters` with the per-class listings
supplied by an oracle (the nested class/sensor loop flattened). -/
def get_unique_stations_with_parameters (sensorsFor : String → List RawSensor)
    (sensor_classes : List String) : List StationOut :=
  aggregatePairs (sensor_classes.flatMap (fun c => (sensorsFor c).map (fun s => (c, s))))

/-! ## Per-sensor series fetch
(`CimaWebDropsClient.get_data_for_sensor`, client.py 246-278) -/

/-- Sensor readings (floats in the source, only ever moved around). -/
abbrev Val := Int

/-- One element of the upstream time-series response:
`{timeline: [...], values: [...]}`. -/
structure TimelineBlock where
  timeline : List String
  values : List Val
deriving DecidableEq, Repr

/-- Model of the data reshaping in `get_data_for_sensor` (client.py
271-278) applied to a deserialized upstream body: take the first array
element (`none` models the `IndexError` on an empty array) and build
`dict(zip(timeline, values))`.  `zip` stops at the shorter of the two
arrays. -/
def get_data_for_sensor (data : List TimelineBlock) : Option (List (String × Val)) :=
  match data with
  | [] => none
  | blk :: _ => some (dictOfPairs (blk.timeline.zip blk.values))

/-! ## Series merger
(`CimaWebDropsClient.get_data_for_sensors`, client.py 280-319) -/

/-- One element of `sensors_info`; a missing dict key is `none`. -/
structure SensorRef where
  sensor_class : Option String
  sensor_id : Option String
deriving DecidableEq, Repr

/-- One value of the `station_data` dict: the parsed observation time
plus the `"{class}:{id}"`-keyed fields accumulated so far. -/
structure RecM where
  observation_time : DateTimeM
  fields : List (String × Val)
deriving DecidableEq, Repr

/-- The two `ValueError` raise sites in `get_data_for_sensors`:
a sensor reference without both keys (line 297), and a timestamp
`strptime` cannot parse (lines 310-312). -/
inductive MergeErr
  | missingKeys
  | badDate (s : String)
deriving DecidableEq, Repr

/-- The field key `f"{sensor_class}:{sensor_id}"` (line 317). -/
def fieldKey (sensor_class sensor_id : String) : String :=
  sensor_class ++ ":" ++ sensor_id

/-- Inner loop of `get_data_for_sensors` (client.py 306-317):
fold one sensor's `(timestamp, value)` items into `station_data`.
A timestamp not yet present is parsed (with the format selected by
`date_as_string`) and a fresh record inserted; then the sensor's field
is set on the record. -/
def mergeItems (date_as_string : Bool) (fkey : String) (acc : List (String × RecM)) :
    List (String × Val) → Except MergeErr (List (String × RecM))
  | [] => .ok acc
  | (obs, v) :: rest =>
    match getA obs acc with
    | some _ =>
      mergeItems date_as_string fkey
        (modifyA obs (fun r => { r with fields := setA fkey v r.fields }) acc) rest
    | none =>
      match parseFor date_as_string obs with
      | none => .error (.badDate obs)
      | some dt =>
        mergeItems date_as_string fkey
          (modifyA obs (fun r => { r with fields := setA fkey v r.fields })
            (setA obs ⟨dt, []⟩ acc)) rest

/-- Outer loop of `get_data_for_sensors` (client.py 295-317).
`fetch flag c i` is the oracle for what `get_data_for_sensor` returns
for sensor `c`/`i` when called with `date_as_string=flag` (the date
window, forwarded unchanged, is absorbed into the oracle).  Note line
302 of the source passes `date_as_string=True` to the fetch regardless
of the `date_as_string` argument of `get_data_for_sensors` itself.
Returns the final `station_data` items (or the first error raised)
together with the number of upstream fetches performed. -/
def mergeSensors (fetch : Bool → String → String → List (String × Val))
    (date_as_string : Bool) (acc : List (String × RecM)) (calls : Nat) :
    List SensorRef → Except MergeErr (List (String × RecM)) × Nat
  | [] => (.ok acc, calls)
  | sr :: rest =>
    match sr.sensor_class, sr.sensor_id with
    | some c, some i =>
      let sensor_data := fetch true c i
      if sensor_data.isEmpty then
        mergeSensors fetch date_as_string acc (calls + 1) rest
      else
        match mergeItems date_as_string (fieldKey c i) acc sensor_data with
        | .error e => (.error e, calls + 1)
        | .ok acc1 => mergeSensors fetch date_as_string acc1 (calls + 1) rest
    | _, _ => (.error .missingKeys, calls)

/-- Model of `get_data_for_sensors`: empty input returns immediately;
otherwise the merge loop runs and the record dict's values are
returned in insertion order (client.py 290-319). -/
def get_data_for_sensors (fetch : Bool → String → String → List (String × Val))
    (sensors_info : List SensorRef) (date_as_string : Bool) :
    Except MergeErr (List RecM) × Nat :=
  if sensors_info.isEmpty then (.ok [], 0)
  else
    match mergeSensors fetch date_as_string [] 0 sensors_info with
    | (.ok sd, n) => (.ok (sd.map Prod.snd), n)
    | (.error e, n) => (.error e, n)

/-! ## Variable-mapping parsing
(`CimaWebdropsPlugin.get_station_data`, plugins.py 27-38) -/

/-- The mapping-string loop of `get_station_data`: split each stored
`cima_sensor_info` string on `":"` and keep exactly the two-part
splits as sensor references; any other shape falls through the
`len(parts) == 2` test and is dropped. -/
def parse_variable_mappings (mappings : List String) : List SensorRef :=
  mappings.foldl
    (fun acc m =>
      match splitOnChar ':' m.data with
      | [c, i] => acc ++ [⟨some (String.mk c), some (String.mk i)⟩]
      | _ => acc)
    []

/-- The dict comprehension keyed by station id (client.py 200). -/
def stationsDictOf (sts : List StationOut) : List (String × StationOut) :=
  sts.foldl (fun d s => setA s.station_id s d) []

/-! ## Cache layer and cached listing operations
(client.py 56-244; the Django cache is modelled as an explicit
key/value store threaded through the calls, and the upstream HTTP
responses as an oracle; `upstream_calls` counts resource GETs) -/

/-- A value stored in the shared cache (the stored JSON payloads of
the four cacheable operations). -/
inductive CacheVal
  | classesV (cs : List String)
  | sensorsV (ss : List RawSensor)
  | stationsV (d : List (String × StationOut))
  | paramsV (ps : List ParamOut)
deriving DecidableEq, Repr

/-- Shared cache plus the count of upstream resource requests made. -/
structure ClientState where
  cache : List (String × CacheVal)
  upstream_calls : Nat
deriving DecidableEq, Repr

/-- Upstream responses for the two listing endpoints; `Except.error`
models a non-2xx status propagated by `raise_for_status`. -/
structure Upstream where
  classes_resp : Except Unit (List String)
  sensors_resp : String → Except Unit (List RawSensor)

/-- Model of `get_sensor_classes` (client.py 56-72).  The cache test
is Python truthiness of `cache.get(key)`: an absent entry and an empty
cached list both fall through to the upstream call. -/
def get_sensor_classes (client_id : String) (use_cache : Bool) (up : Upstream)
    (st : ClientState) : Except Unit (List String) × ClientState :=
  let cache_key := client_id ++ "-cima-sensor-classes"
  let hit : Option (List String) :=
    match getA cache_key st.cache with
    | some (.classesV v) => if v.isEmpty then none else some v
    | _ => none
  match (if use_cache then hit else none) with
  | some v => (.ok v, st)
  | none =>
    let st1 : ClientState := { st with upstream_calls := st.upstream_calls + 1 }
    match up.classes_resp with
    | .error e => (.error e, st1)
    | .ok v =>
      if use_cache then (.ok v, { st1 with cache := setA cache_key (.classesV v) st1.cache })
      else (.ok v, st1)

/-- Model of `get_sensors_list_for_class` (client.py 74-92).  Unlike
the other three operations, the cache test is `value is not None`, so
a cached empty list is served. -/
def get_sensors_list_for_class (client_id : String) (use_cache : Bool) (up : Upstream)
    (sensor_class : String) (st : ClientState) : Except Unit (List RawSensor) × ClientState :=
  let cache_key := client_id ++ "-cima-sensor-list-class-" ++ sensor_class
  let hit : Option (List RawSensor) :=
    match getA cache_key st.cache with
    | some (.sensorsV v) => some v
    | _ => none
  match (if use_cache then hit else none) with
  | some v => (.ok v, st)
  | none =>
    let st1 : ClientState := { st with upstream_calls := st.upstream_calls + 1 }
    match up.sensors_resp sensor_class with
    | .error e => (.error e, st1)
    | .ok v =>
      if use_cache then (.ok v, { st1 with cache := setA cache_key (.sensorsV v) st1.cache })
      else (.ok v, st1)

/-- The class loop of `get_unique_stations_with_parameters` run against
the cache-aware listing (client.py 119-120): collect the flattened
`(class, sensor)` pairs, propagating the first upstream error. -/
def collect_class_sensors (client_id : String) (use_cache : Bool) (up : Upstream)
    (st : ClientState) : List String → Except Unit (List (String × RawSensor)) × ClientState
  | [] => (.ok [], st)
  | c :: rest =>
    match get_sensors_list_for_class client_id use_cache up c st with
    | (.error e, st1) => (.error e, st1)
    | (.ok ss, st1) =>
      match collect_class_sensors client_id use_cache up st1 rest with
      | (.error e, st2) => (.error e, st2)
      | (.ok ps, st2) => (.ok (ss.map (fun s => (c, s)) ++ ps), st2)

/-- Model of `get_stations` (client.py 181-206): truthiness-checked
cache, then the class listing, then the aggregator over the cached
per-class listings, keyed by `station_id`; the result is cached only
when it was actually computed (an empty class list returns `{}`
uncached, an upstream error propagates before the cache write). -/
def get_stations (client_id : String) (use_cache : Bool) (up : Upstream)
    (st : ClientState) : Except Unit (List (String × StationOut)) × ClientState :=
  let cache_key := client_id ++ "-cima-stations"
  let hit : Option (List (String × StationOut)) :=
    match getA cache_key st.cache with
    | some (.stationsV v) => if v.isEmpty then none else some v
    | _ => none
  match (if use_cache then hit else none) with
  | some v => (.ok v, st)
  | none =>
    match get_sensor_classes client_id use_cache up st with
    | (.error e, st1) => (.error e, st1)
    | (.ok sensor_classes, st1) =>
      if sensor_classes.isEmpty then (.ok [], st1)
      else
        match collect_class_sensors client_id use_cache up st1 sensor_classes with
        | (.error e, st2) => (.error e, st2)
        | (.ok pairs, st2) =>
          let stations := aggregatePairs pairs
          let stations_dict := stationsDictOf stations
          if use_cache then
            (.ok stations_dict,
              { st2 with cache := setA cache_key (.stationsV stations_dict) st2.cache })
          else (.ok stations_dict, st2)

/-- Model of `get_station_parameters` (client.py 208-244):
truthiness-checked cache, then the station directory; an unknown
station id or a station without parameters yields `[]` uncached. -/
def get_station_parameters (client_id : String) (use_cache : Bool) (up : Upstream)
    (station_id : String) (st : ClientState) : Except Unit (List ParamOut) × ClientState :=
  let cache_key := client_id ++ "-cima-station-params-" ++ station_id
  let hit : Option (List ParamOut) :=
    match getA cache_key st.cache with
    | some (.paramsV v) => if v.isEmpty then none else some v
    | _ => none
  match (if use_cache then hit else none) with
  | some v => (.ok v, st)
  | none =>
    match get_stations client_id use_cache up st with
    | (.error e, st1) => (.error e, st1)
    | (.ok stations, st1) =>
      match getA station_id stations with
      | none => (.ok [], st1)
      | some info =>
        let params_list := info.parameters.map (fun p => ⟨p.cls, p.unit, p.sensor_ids⟩)
        if use_cache then
          (.ok params_list,
            { st1 with cache := setA cache_key (.paramsV params_list) st1.cache })
        else (.ok params_list, st1)

/-! ## Specification-side functions and concrete fixtures -/

/-- The validity test of a sensor reference performed at client.py 296:
both dict keys present. -/
def validRef (r : SensorRef) : Bool :=
  r.sensor_class.isSome && r.sensor_id.isSome

/-- First-seen deduplication of a timestamp list, from the words of
the specification: one entry per distinct element, in the order each
element is first encountered. -/
def firstDedup (l : List String) : List String :=
  l.foldl (fun ks t => if t ∈ ks then ks else ks ++ [t]) []

/-- The timestamps reported by one sensor reference under a fetch
oracle (the keys of its per-sensor mapping). -/
def sensorTimestamps (fetch : Bool → String → String → List (String × Val))
    (r : SensorRef) : List String :=
  (fetch true (r.sensor_class.getD "") (r.sensor_id.getD "")).map Prod.fst

/-- Specification of the fields of the composite record at timestamp
`t`: one `"{class}:{id}"` field for exactly the sensors that reported
`t`, in the order the sensors were requested. -/
def reportedFields (fetch : Bool → String → String → List (String × Val))
    (refs : List SensorRef) (t : String) : List (String × Val) :=
  refs.filterMap (fun r =>
    (getA t (fetch true (r.sensor_class.getD "") (r.sensor_id.getD ""))).map
      (fun v => (fieldKey (r.sensor_class.getD "") (r.sensor_id.getD ""), v)))

/-- Specification of the merged `station_data` items, from the words
of the specification: one record per distinct timestamp in first-seen
order, carrying the parsed observation time and the sparse fields. -/
def mergeSpec (fetch : Bool → String → String → List (String × Val))
    (date_as_string : Bool) (refs : List SensorRef) : List (String × RecM) :=
  (firstDedup (refs.flatMap (sensorTimestamps fetch))).map
    (fun t => (t, { observation_time := (parseFor date_as_string t).getD ⟨0, 0, 0, 0, 0, 0⟩,
                    fields := reportedFields fetch refs t }))

/-- The sort key of the final station ordering (client.py 178). -/
def stationSortKey (s : StationOut) : String × Coord × Coord :=
  (s.station_name, s.lat, s.lng)

/-- Fetch oracle for the `date_as_string` counterexample: the upstream
returns compact timestamps when asked with `date_as_string=true` and
ISO-8601 timestamps otherwise, both parseable in their own format. -/
def fetchC5 : Bool → String → String → List (String × Val) :=
  fun flag _ _ => if flag then [("202401010000", 7)] else [("2024-01-01T00:00:00Z", 7)]

/-- Constant fetch oracle with one well-formed compact timestamp. -/
def fetchOne : Bool → String → String → List (String × Val) :=
  fun _ _ _ => [("202401010000", 5)]

/-- Fetch oracle for the sparse-merge example: sensor A reports
timestamps t1 and t2, sensor B reports t2 and t3. -/
def fetchAB : Bool → String → String → List (String × Val) :=
  fun _ _ i =>
    if i = "A" then [("202401010000", 1), ("202401010010", 2)]
    else if i = "B" then [("202401010010", 3), ("202401010020", 4)]
    else []

/-- A well-formed sensor reference. -/
def refT1 : SensorRef := ⟨some "TERMOMETRO", some "T1"⟩

/-- A sensor reference missing its `sensor_id` key. -/
def refNoId : SensorRef := ⟨some "TERMOMETRO", none⟩

/-- Two raw sensors at identical rounded coordinates reporting
different station names. -/
def cexSensorA : RawSensor := ⟨some "A", some 1, some 2, none, some "1"⟩

/-- Second sensor of the name-conflict pair. -/
def cexSensorB : RawSensor := ⟨some "B", some 1, some 2, some "C", some "2"⟩

/-- Two raw sensors at identical rounded coordinates agreeing on the
name but reporting different non-empty units. -/
def cexSensorU1 : RawSensor := ⟨some "A", some 3, some 4, some "C", some "1"⟩

/-- Second sensor of the unit-conflict pair. -/
def cexSensorU2 : RawSensor := ⟨some "A", some 3, some 4, some "F", some "2"⟩

/-- Upstream oracle whose class listing succeeds with an empty list. -/
def upEmpty : Upstream := ⟨.ok [], fun _ => .ok []⟩

/-- Upstream oracle with one class and one well-formed sensor. -/
def upOne : Upstream :=
  ⟨.ok ["TERMOMETRO"], fun _ => .ok [⟨some "A", some 1, some 2, some "C", some "1"⟩]⟩

/-- Upstream oracle whose class listing fails (non-2xx response). -/
def upErr : Upstream := ⟨.error (), fun _ => .error ()⟩

/-- The composite-record field key contributed by a sensor reference. -/
def refFieldKey (r : SensorRef) : String :=
  fieldKey (r.sensor_class.getD "") (r.sensor_id.getD "")

/-! ## Characterizations of the aggregation fold (proof-side views of
`aggStep`, used to reason per station key and per class) -/

/-- The station key of a `(class, sensor)` pair, when the sensor is
not skipped as malformed. -/
def sensorKey (p : String × RawSensor) : Option (Coord × Coord) :=
  match p.2.lat, p.2.lng with
  | some lat, some lng => some (lat, lng)
  | _, _ => none

/-- What one aggregation step does to the single entry at key `k`:
create it if absent, then merge the sensor in. -/
def entryStep (k : Coord × Coord) (e : Option StationEntry) (p : String × RawSensor) :
    Option StationEntry :=
  some (updateEntry p.1 p.2 (match e with
    | some st => st
    | none => mkStationEntry k.1 k.2 (cleanName p.2.name)))

/-- The entry at key `k` produced by folding a pair list. -/
def entryFold (k : Coord × Coord) (ps : List (String × RawSensor)) : Option StationEntry :=
  ps.foldl (entryStep k) none

/-- What one aggregation step does to the single parameter entry of a
sensor's class: the unit update (client.py 158-159) followed by the
sensor-id insertion (client.py 161-162). -/
def metaStep (s : RawSensor) (m : ParamMeta) : ParamMeta :=
  let m1 := if truthyStr s.mu && !truthyStr m.unit then { m with unit := s.mu } else m
  match s.id with
  | some sid =>
    if sid.data.isEmpty then m1
    else { m1 with sensor_ids := addToSet sid m1.sensor_ids }
  | none => m1

/-- Per-class view of one aggregation step: create the meta if absent
(client.py 152-156), then apply `metaStep`. -/
def metaFoldStep (m : Option ParamMeta) (q : String × RawSensor) : Option ParamMeta :=
  some (metaStep q.2 (match m with
    | some m0 => m0
    | none => ⟨q.2.mu, []⟩))

/-- The parameter dict produced by folding `updateEntryParams`. -/
def paramFold (qs : List (String × RawSensor)) (init : List (String × ParamMeta)) :
    List (String × ParamMeta) :=
  qs.foldl (fun prm q => updateEntryParams q.1 q.2 prm) init

/-- The canonical (output) form of a parameter meta: the unit together
with the sorted sensor ids. -/
def finalizeMetaPair (m : ParamMeta) : Option String × List String :=
  (m.unit, List.insertionSort strLeP m.sensor_ids)

/-- Sorting relation on materialized parameters (by class name). -/
def paramOutLe (a b : ParamOut) : Prop := strLe a.cls b.cls = true

instance : DecidableRel paramOutLe := fun _ _ => decEq _ _

/-! ## General lemmas -/

theorem truthyStr_some_of_ne (s : String) (h : s.data ≠ []) : truthyStr (some s) = true := by
  simp [truthyStr, h]

/-! ## Claim C1: mismatched timeline and values arrays -/

/-- C1: the claim states that `get_data_for_sensor` fails loudly on a
`timeline`/`values` length mismatch and never silently truncates.  The
code builds `dict(zip(timeline, values))`, and `zip` stops at the
shorter array: on a two-element timeline with a one-element values
array the call succeeds and returns the truncated one-entry mapping.
This theorem evaluates the model at that failing input. -/
theorem C1_mismatch_silently_truncated :
    get_data_for_sensor [⟨["202401010000", "202401010010"], [5]⟩] =
      some [("202401010000", 5)] := by decide

/-! ## Claim C3: malformed mapping strings -/

/-- C3: the claim states that a stored mapping string whose separator
count is not exactly one colon is rejected as a configuration error.
The loop in `get_station_data` instead tests `len(parts) == 2` and
silently drops every other shape: `"TERMOMETRO"` (no colon) and
`"A:B:C"` (two colons) produce no sensor reference and no error, while
the loop continues with the remaining mappings.  This theorem
evaluates the parser at those failing inputs. -/
theorem C3_malformed_mapping_silently_skipped :
    parse_variable_mappings ["TERMOMETRO", "TERMOMETRO:T1", "A:B:C"] =
      [⟨some "TERMOMETRO", some "T1"⟩] := by decide

/-! ## Claim C5: date format versus the date-as-string flag -/

/-- C5: the claim states that the timestamps fetched are parsed with a
format compatible with the request's `date_as_string` flag, parsing
succeeding on the data actually fetched for that flag value.  But line
302 of client.py passes `date_as_string=True` to `get_data_for_sensor`
unconditionally, while the parse format follows the caller's flag: on
a `date_as_string=False` request the upstream is asked for compact
timestamps (the oracle here returns ISO-8601 data for the flag-false
form, which would parse), and `strptime` with the ISO format then
fails on the compact timestamp actually fetched. -/
theorem C5_fetch_ignores_date_flag :
    get_data_for_sensors fetchC5 [refT1] false = (.error (.badDate "202401010000"), 1) ∧
    fetchC5 false "TERMOMETRO" "T1" = [("2024-01-01T00:00:00Z", 7)] ∧
    parseISO "2024-01-01T00:00:00Z" = some ⟨2024, 1, 1, 0, 0, 0⟩ ∧
    parseCompact "202401010000" = some ⟨2024, 1, 1, 0, 0, 0⟩ := by decide

/-! ## Claim C7: token refresh boundary -/

/-- C7: with a (truthy) cached token and `expiry_epoch = now + 29`,
`_ensure_token` performs the refresh request and stores
`now + expires_in` (defaulting to 300 seconds) as the new expiry; with
`expiry_epoch = now + 31` it reuses the cached token and performs no
request. -/
theorem C7_token_refresh_boundary (now : Int) (tok : String) (r : TokenResp)
    (htok : truthyStr (some tok) = true) :
    ensure_token now (.ok r) ⟨some tok, now + 29⟩ =
      .ok (⟨some r.access_token, now + r.expires_in.getD 300⟩, true) ∧
    ensure_token now (.ok r) ⟨some tok, now + 31⟩ = .ok (⟨some tok, now + 31⟩, false) ∧
    (r.expires_in = none →
      ensure_token now (.ok r) ⟨some tok, now + 29⟩ =
        .ok (⟨some r.access_token, now + 300⟩, true)) := by
  have h29 : ¬(now < now + 29 - 30) := by omega
  have h31 : now < now + 31 - 30 := by omega
  refine ⟨?_, ?_, ?_⟩
  · simp [ensure_token, h29]
  · simp [ensure_token, htok, h31]
  · intro hnone
    simp [ensure_token, h29, hnone]

/-- Witness for C7 at `now = 100`, token `"t"`, response
`{access_token: "u", expires_in: 200}`. -/
theorem C7_token_refresh_boundary_witness :
    truthyStr (some "t") = true ∧
    (ensure_token 100 (.ok ⟨"u", some 200⟩) ⟨some "t", 100 + 29⟩ =
      .ok (⟨some "u", 100 + (some (200 : Int)).getD 300⟩, true) ∧
     ensure_token 100 (.ok ⟨"u", some 200⟩) ⟨some "t", 100 + 31⟩ =
      .ok (⟨some "t", 100 + 31⟩, false) ∧
     ((some (200 : Int)) = none →
      ensure_token 100 (.ok ⟨"u", some 200⟩) ⟨some "t", 100 + 29⟩ =
        .ok (⟨some "u", 100 + 300⟩, true))) :=
  ⟨by decide, C7_token_refresh_boundary 100 "t" ⟨"u", some 200⟩ (by decide)⟩

/-! ## Claim C10: empty sensor reference sequence -/

/-- C10: on the empty `sensors_info`, `get_data_for_sensors` returns
the empty list immediately: no reference is validated, no token
refresh happens and no upstream fetch is performed (the call counter
stays at zero), for every fetch oracle and flag value. -/
theorem C10_empty_sensors_info (fetch : Bool → String → String → List (String × Val))
    (date_as_string : Bool) :
    get_data_for_sensors fetch [] date_as_string = (.ok [], 0) := rfl

/-- Witness for C10 at a concrete oracle and flag. -/
theorem C10_empty_sensors_info_witness :
    get_data_for_sensors fetchOne [] true = (.ok [], 0) :=
  C10_empty_sensors_info fetchOne true

theorem mergeItems_ok (das : Bool) (fk : String) :
    ∀ (items : List (String × Val)) (acc : List (String × RecM)),
    (∀ p ∈ items, (parseFor das p.1).isSome = true) →
    ∃ out, mergeItems das fk acc items = .ok out := by
  intro items
  induction items with
  | nil => exact fun acc _ => ⟨acc, rfl⟩
  | cons p rest ih =>
    intro acc hp
    obtain ⟨obs, v⟩ := p
    have hp0 : (parseFor das obs).isSome = true := hp (obs, v) (List.mem_cons_self _ _)
    have hprest : ∀ q ∈ rest, (parseFor das q.1).isSome = true :=
      fun q hq => hp q (List.mem_cons_of_mem _ hq)
    cases hacc : getA obs acc with
    | some r =>
      obtain ⟨out, hout⟩ :=
        ih (modifyA obs (fun t => { t with fields := setA fk v t.fields }) acc) hprest
      exact ⟨out, by simp [mergeItems, hacc]; exact hout⟩
    | none =>
      obtain ⟨dt, hdt⟩ := Option.isSome_iff_exists.mp hp0
      obtain ⟨out, hout⟩ :=
        ih (modifyA obs (fun t => { t with fields := setA fk v t.fields })
          (setA obs ⟨dt, []⟩ acc)) hprest
      exact ⟨out, by simp [mergeItems, hacc, hdt]; exact hout⟩

theorem mergeSensors_invalid (fetch : Bool → String → String → List (String × Val)) (das : Bool) :
    ∀ (refs : List SensorRef) (acc : List (String × RecM)) (calls : Nat),
    (∃ r ∈ refs, validRef r = false) →
    (∀ r ∈ refs, ∀ c i, r.sensor_class = some c → r.sensor_id = some i →
       ∀ p ∈ fetch true c i, (parseFor das p.1).isSome = true) →
    mergeSensors fetch das acc calls refs =
      (.error .missingKeys, calls + (refs.takeWhile validRef).length) := by
  intro refs
  induction refs with
  | nil => rintro acc calls ⟨r, hr, _⟩ _; exact absurd hr (List.not_mem_nil r)
  | cons r rest ih =>
    intro acc calls hinv hparse
    obtain ⟨rc, ri⟩ := r
    cases rc with
    | none =>
      simp [mergeSensors, List.takeWhile, validRef]
    | some c =>
      cases ri with
      | none =>
        simp [mergeSensors, List.takeWhile, validRef]
      | some i =>
        have hv : validRef ⟨some c, some i⟩ = true := by simp [validRef]
        have hinv2 : ∃ q ∈ rest, validRef q = false := by
          obtain ⟨q, hq, hqf⟩ := hinv
          rcases List.mem_cons.mp hq with heq | hmem
          · rw [heq] at hqf; rw [hv] at hqf; exact absurd hqf (by simp)
          · exact ⟨q, hmem, hqf⟩
        have hparse2 : ∀ q ∈ rest, ∀ c2 i2, q.sensor_class = some c2 → q.sensor_id = some i2 →
            ∀ p ∈ fetch true c2 i2, (parseFor das p.1).isSome = true :=
          fun q hq => hparse q (List.mem_cons_of_mem _ hq)
        have htw : ((⟨some c, some i⟩ : SensorRef) :: rest).takeWhile validRef =
            ⟨some c, some i⟩ :: rest.takeWhile validRef := by
          simp [List.takeWhile, hv]
        cases hemp : (fetch true c i).isEmpty with
        | true =>
          rw [htw]
          have := ih acc (calls + 1) hinv2 hparse2
          simp [mergeSensors, hemp, this]
          omega
        | false =>
          have hpi : ∀ p ∈ fetch true c i, (parseFor das p.1).isSome = true :=
            hparse ⟨some c, some i⟩ (List.mem_cons_self _ _) c i rfl rfl
          obtain ⟨out, hout⟩ := mergeItems_ok das (fieldKey c i) (fetch true c i) acc hpi
          rw [htw]
          have := ih out (calls + 1) hinv2 hparse2
          simp [mergeSensors, hemp, hout, this]
          omega

/-! ## Claim C2: malformed sensor references -/

/-- C2 counterexample: the claim states that a sequence containing a
malformed sensor reference raises the malformed-input error before any
network call.  With a valid reference followed by one missing its
`sensor_id` key, the loop fetches data for the valid reference first
(one upstream call) and only then reaches the malformed one and
raises: validation is interleaved with fetching, not performed up
front. -/
theorem C2_fetch_happens_before_validation_error :
    get_data_for_sensors fetchOne [refT1, refNoId] true = (.error .missingKeys, 1) ∧
    (1 : Nat) ≠ 0 := by decide

/-- C2 (amended): a sequence containing a malformed sensor reference
always aborts the whole merge with the malformed-input `ValueError`
and no partial result; the error is raised when the left-to-right scan
reaches the first malformed reference, after exactly one upstream
fetch per valid reference preceding it and no fetch for the malformed
reference itself or anything after it.  In particular, when the first
reference is malformed no network call is made at all.  (The
hypothesis on `parseFor` expresses that the data fetched for the
preceding valid references is well-formed, so that no date-parse error
preempts the malformed-reference error.) -/
theorem C2_malformed_ref_aborts (fetch : Bool → String → String → List (String × Val))
    (das : Bool) (refs : List SensorRef)
    (hinv : ∃ r ∈ refs, validRef r = false)
    (hparse : ∀ r ∈ refs, ∀ c i, r.sensor_class = some c → r.sensor_id = some i →
       ∀ p ∈ fetch true c i, (parseFor das p.1).isSome = true) :
    get_data_for_sensors fetch refs das =
      (.error .missingKeys, (refs.takeWhile validRef).length) := by
  have h := mergeSensors_invalid fetch das refs [] 0 hinv hparse
  have hne : refs.isEmpty = false := by
    obtain ⟨r, hr, _⟩ := hinv
    cases refs with
    | nil => exact absurd hr (List.not_mem_nil r)
    | cons a l => rfl
  simp [get_data_for_sensors, hne, h]

/-- Witness for C2 at the concrete oracle `fetchOne` and references
`[refT1, refNoId]`. -/
theorem C2_malformed_ref_aborts_witness :
    (∃ r ∈ [refT1, refNoId], validRef r = false) ∧
    (∀ r ∈ [refT1, refNoId], ∀ c i, r.sensor_class = some c → r.sensor_id = some i →
       ∀ p ∈ fetchOne true c i, (parseFor true p.1).isSome = true) ∧
    get_data_for_sensors fetchOne [refT1, refNoId] true =
      (.error .missingKeys, (([refT1, refNoId] : List SensorRef).takeWhile validRef).length) := by
  have hinv : ∃ r ∈ [refT1, refNoId], validRef r = false := ⟨refNoId, by decide, by decide⟩
  have hparse : ∀ r ∈ [refT1, refNoId], ∀ c i, r.sensor_class = some c → r.sensor_id = some i →
      ∀ p ∈ fetchOne true c i, (parseFor true p.1).isSome = true := by
    intro r _ c i _ _ p hp
    simp [fetchOne] at hp
    rw [hp]
    decide
  exact ⟨hinv, hparse, C2_malformed_ref_aborts fetchOne true [refT1, refNoId] hinv hparse⟩

section AssocLemmas

variable {κ β : Type} [DecidableEq κ]

theorem getA_eq_none_iff (k : κ) (l : List (κ × β)) :
    getA k l = none ↔ k ∉ l.map Prod.fst := by
  induction l with
  | nil => simp [getA]
  | cons p rest ih =>
    obtain ⟨k2, v⟩ := p
    by_cases h : k2 = k
    · subst h; simp [getA]
    · simp [getA, h, Ne.symm h, ih]

theorem getA_isSome_iff (k : κ) (l : List (κ × β)) :
    (getA k l).isSome = true ↔ k ∈ l.map Prod.fst := by
  induction l with
  | nil => simp [getA]
  | cons p rest ih =>
    obtain ⟨k2, v⟩ := p
    by_cases h : k2 = k
    · subst h; simp [getA]
    · simp [getA, h, Ne.symm h, ih]

theorem getA_mem {k : κ} {v : β} {l : List (κ × β)} (h : getA k l = some v) : (k, v) ∈ l := by
  induction l with
  | nil => simp [getA] at h
  | cons p rest ih =>
    obtain ⟨k2, v2⟩ := p
    by_cases hk : k2 = k
    · subst hk
      simp [getA] at h
      simp [h]
    · simp [getA, hk] at h
      exact List.mem_cons_of_mem _ (ih h)

theorem mem_getA {k : κ} {v : β} {l : List (κ × β)}
    (hnd : (l.map Prod.fst).Nodup) (h : (k, v) ∈ l) : getA k l = some v := by
  induction l with
  | nil => simp at h
  | cons p rest ih =>
    obtain ⟨k2, v2⟩ := p
    rw [List.map_cons, List.nodup_cons] at hnd
    rcases List.mem_cons.mp h with heq | hmem
    · injection heq with h1 h2
      subst h1; subst h2
      simp [getA]
    · have hne : k2 ≠ k := by
        intro he; subst he
        exact hnd.1 (by simpa using List.mem_map_of_mem Prod.fst hmem)
      simp [getA, hne]
      exact ih hnd.2 hmem

theorem getA_modifyA (k t : κ) (f : β → β) (l : List (κ × β)) :
    getA t (modifyA k f l) = if t = k then (getA t l).map f else getA t l := by
  induction l with
  | nil => simp [getA, modifyA, ite_self]
  | cons p rest ih =>
    obtain ⟨k2, v⟩ := p
    by_cases h1 : k2 = k
    · subst h1
      by_cases h2 : k2 = t
      · subst h2; simp [getA, modifyA]
      · simp [getA, modifyA, h2, Ne.symm h2]
    · by_cases h2 : k2 = t
      · subst h2
        simp [getA, modifyA, h1, Ne.symm h1]
      · simp [getA, modifyA, h1, h2, ih]

theorem keys_modifyA (k : κ) (f : β → β) (l : List (κ × β)) :
    (modifyA k f l).map Prod.fst = l.map Prod.fst := by
  induction l with
  | nil => simp [modifyA]
  | cons p rest ih =>
    obtain ⟨k2, v⟩ := p
    by_cases h : k2 = k <;> simp [modifyA, h, ih]

theorem setA_of_getA_none {k : κ} {l : List (κ × β)} (v : β) (h : getA k l = none) :
    setA k v l = l ++ [(k, v)] := by
  induction l with
  | nil => simp [setA]
  | cons p rest ih =>
    obtain ⟨k2, v2⟩ := p
    by_cases hk : k2 = k
    · subst hk; simp [getA] at h
    · simp [getA, hk] at h
      simp [setA, hk, ih h]

theorem getA_setA_self (k : κ) (v : β) (l : List (κ × β)) :
    getA k (setA k v l) = some v := by
  induction l with
  | nil => simp [getA, setA]
  | cons p rest ih =>
    obtain ⟨k2, v2⟩ := p
    by_cases hk : k2 = k <;> simp [getA, setA, hk, ih]

theorem getA_setA_ne {k t : κ} (v : β) (l : List (κ × β)) (h : t ≠ k) :
    getA t (setA k v l) = getA t l := by
  induction l with
  | nil => simp [getA, setA, Ne.symm h]
  | cons p rest ih =>
    obtain ⟨k2, v2⟩ := p
    by_cases hk : k2 = k
    · subst hk; simp [getA, setA, Ne.symm h]
    · by_cases ht : k2 = t <;> simp [getA, setA, hk, ht, ih, h]

theorem assoc_eq_map_of_getA (l : List (κ × β)) (ks : List κ) (f : κ → β)
    (hkeys : l.map Prod.fst = ks) (hnd : ks.Nodup)
    (hget : ∀ k ∈ ks, getA k l = some (f k)) :
    l = ks.map (fun k => (k, f k)) := by
  induction l generalizing ks with
  | nil => simp at hkeys; subst hkeys; simp
  | cons p rest ih =>
    obtain ⟨k2, v⟩ := p
    cases ks with
    | nil => simp at hkeys
    | cons k0 ks0 =>
      rw [List.map_cons] at hkeys
      injection hkeys with h1 h2
      subst h1
      rw [List.nodup_cons] at hnd
      have hv : v = f k2 := by
        have := hget k2 (List.mem_cons_self _ _)
        simpa [getA] using this
      subst hv
      simp only [List.map_cons, List.cons.injEq]
      refine ⟨trivial, ih ks0 h2 hnd.2 ?_⟩
      intro k hk
      have hne : k2 ≠ k := fun he => hnd.1 (he ▸ hk)
      have := hget k (List.mem_cons_of_mem _ hk)
      simpa [getA, hne] using this

end AssocLemmas

theorem mergeItems_spec (das : Bool) (fk : String) :
    ∀ (items : List (String × Val)) (acc : List (String × RecM)),
    (items.map Prod.fst).Nodup →
    (∀ p ∈ items, (parseFor das p.1).isSome = true) →
    ∃ out, mergeItems das fk acc items = .ok out ∧
      out.map Prod.fst = acc.map Prod.fst ++
        (items.map Prod.fst).filter (fun t => decide (t ∉ acc.map Prod.fst)) ∧
      ∀ t, getA t out =
        match getA t acc, getA t items with
        | some r, some v => some { r with fields := setA fk v r.fields }
        | some r, none => some r
        | none, some v => (parseFor das t).map (fun dt => ⟨dt, [(fk, v)]⟩)
        | none, none => none := by
  intro items
  induction items with
  | nil =>
    intro acc _ _
    refine ⟨acc, rfl, by simp, ?_⟩
    intro t
    cases h : getA t acc <;> simp [getA, h]
  | cons p rest ih =>
    intro acc hnd hp
    obtain ⟨obs, v⟩ := p
    rw [List.map_cons, List.nodup_cons] at hnd
    have hp0 : (parseFor das obs).isSome = true := hp (obs, v) (List.mem_cons_self _ _)
    have hprest : ∀ q ∈ rest, (parseFor das q.1).isSome = true :=
      fun q hq => hp q (List.mem_cons_of_mem _ hq)
    cases hacc : getA obs acc with
    | some r =>
      set acc1 := modifyA obs (fun t => { t with fields := setA fk v t.fields }) acc with hacc1
      obtain ⟨out, hout, hkeys, hget⟩ := ih acc1 hnd.2 hprest
      have hkeys1 : acc1.map Prod.fst = acc.map Prod.fst := keys_modifyA _ _ _
      have hobs_mem : obs ∈ acc.map Prod.fst := by
        have : (getA obs acc).isSome = true := by simp [hacc]
        exact (getA_isSome_iff _ _).mp this
      refine ⟨out, by simp [mergeItems, hacc]; exact hout, ?_, ?_⟩
      · rw [hkeys, hkeys1, List.map_cons, List.filter_cons]
        simp [hobs_mem]
      · intro t
        rw [hget t]
        by_cases ht : t = obs
        · subst ht
          have h1 : getA t acc1 = some { r with fields := setA fk v r.fields } := by
            rw [hacc1, getA_modifyA]
            simp [hacc]
          have h2 : getA t rest = none := by
            rw [getA_eq_none_iff]
            exact hnd.1
          simp [h1, h2, getA, hacc]
        · have h1 : getA t acc1 = getA t acc := by
            rw [hacc1, getA_modifyA]
            simp [ht]
          have h2 : getA t ((obs, v) :: rest) = getA t rest := by
            simp [getA, Ne.symm ht]
          rw [h1, h2]
    | none =>
      obtain ⟨dt, hdt⟩ := Option.isSome_iff_exists.mp hp0
      set acc1 := modifyA obs (fun t => { t with fields := setA fk v t.fields })
        (setA obs ⟨dt, []⟩ acc) with hacc1
      obtain ⟨out, hout, hkeys, hget⟩ := ih acc1 hnd.2 hprest
      have hobs_notmem : obs ∉ acc.map Prod.fst := (getA_eq_none_iff _ _).mp hacc
      have hkeys1 : acc1.map Prod.fst = acc.map Prod.fst ++ [obs] := by
        rw [hacc1, keys_modifyA, setA_of_getA_none _ hacc]
        simp
      refine ⟨out, by simp [mergeItems, hacc, hdt]; exact hout, ?_, ?_⟩
      · rw [hkeys]
        have hfilter : List.filter (fun t => decide (t ∉ List.map Prod.fst acc1))
              (List.map Prod.fst rest)
            = List.filter (fun t => decide (t ∉ List.map Prod.fst acc))
              (List.map Prod.fst rest) :=
          List.filter_congr (by
            intro x hx
            have hxo : x ≠ obs := fun he => hnd.1 (he ▸ hx)
            simp [hkeys1, hxo])
        rw [hfilter, hkeys1, List.map_cons, List.filter_cons]
        simp [hobs_notmem]
      · intro t
        rw [hget t]
        by_cases ht : t = obs
        · subst ht
          have h1 : getA t acc1 = some ⟨dt, [(fk, v)]⟩ := by
            rw [hacc1, getA_modifyA]
            simp [getA_setA_self]
            rfl
          have h2 : getA t rest = none := by
            rw [getA_eq_none_iff]; exact hnd.1
          simp [h1, h2, getA, hacc, hdt]
        · have h1 : getA t acc1 = getA t acc := by
            rw [hacc1, getA_modifyA]
            simp [ht, getA_setA_ne _ _ ht]
          have h2 : getA t ((obs, v) :: rest) = getA t rest := by
            simp [getA, Ne.symm ht]
          rw [h1, h2]

theorem keys_setA_subset {κ β : Type} [DecidableEq κ] (k : κ) (v : β) (l : List (κ × β)) :
    (setA k v l).map Prod.fst ⊆ l.map Prod.fst ++ [k] := by
  intro x hx
  by_cases hxk : x = k
  · subst hxk
    exact List.mem_append.mpr (.inr (List.mem_singleton_self _))
  · have hs : (getA x (setA k v l)).isSome = true := (getA_isSome_iff _ _).mpr hx
    rw [getA_setA_ne v l hxk] at hs
    exact List.mem_append.mpr (.inl ((getA_isSome_iff _ _).mp hs))

theorem mergeSensors_spec (fetch : Bool → String → String → List (String × Val)) (das : Bool) :
    ∀ (refs : List SensorRef) (acc : List (String × RecM)) (calls : Nat),
    (∀ r ∈ refs, validRef r = true) →
    (∀ r ∈ refs, (sensorTimestamps fetch r).Nodup) →
    (∀ r ∈ refs, ∀ p ∈ fetch true (r.sensor_class.getD "") (r.sensor_id.getD ""),
        (parseFor das p.1).isSome = true) →
    ((refs.map refFieldKey).Nodup) →
    ((acc.map Prod.fst).Nodup) →
    (∀ r ∈ refs, ∀ kv ∈ acc, refFieldKey r ∉ kv.2.fields.map Prod.fst) →
    ∃ out, mergeSensors fetch das acc calls refs = (.ok out, calls + refs.length) ∧
      out.map Prod.fst = refs.foldl
        (fun ks r => ks ++ (sensorTimestamps fetch r).filter (fun t => decide (t ∉ ks)))
        (acc.map Prod.fst) ∧
      ∀ t, getA t out =
        match getA t acc with
        | some r => some { r with fields := r.fields ++ reportedFields fetch refs t }
        | none =>
          if (reportedFields fetch refs t).isEmpty then none
          else (parseFor das t).map (fun dt => ⟨dt, reportedFields fetch refs t⟩) := by
  intro refs
  induction refs with
  | nil =>
    intro acc calls _ _ _ _ _ _
    refine ⟨acc, rfl, by simp, ?_⟩
    intro t
    cases h : getA t acc <;> simp [reportedFields, h]
  | cons r rest ih =>
    intro acc calls hv hnd hp hfk hknd hfree
    obtain ⟨oc, oi⟩ := r
    have hvr : validRef ⟨oc, oi⟩ = true := hv _ (List.mem_cons_self _ _)
    cases oc with
    | none => simp [validRef] at hvr
    | some c =>
      cases oi with
      | none => simp [validRef] at hvr
      | some i =>
        have hts : sensorTimestamps fetch ⟨some c, some i⟩ = (fetch true c i).map Prod.fst := by
          simp [sensorTimestamps]
        have hfkhead : refFieldKey ⟨some c, some i⟩ = fieldKey c i := by
          simp [refFieldKey]
        have hrf : ∀ t, reportedFields fetch (⟨some c, some i⟩ :: rest) t =
            match getA t (fetch true c i) with
            | some v => (fieldKey c i, v) :: reportedFields fetch rest t
            | none => reportedFields fetch rest t := by
          intro t
          cases hg : getA t (fetch true c i) <;>
            simp [reportedFields, List.filterMap_cons, hg, fieldKey]
        have hvrest : ∀ q ∈ rest, validRef q = true := fun q hq => hv q (List.mem_cons_of_mem _ hq)
        have hndrest : ∀ q ∈ rest, (sensorTimestamps fetch q).Nodup :=
          fun q hq => hnd q (List.mem_cons_of_mem _ hq)
        have hprest : ∀ q ∈ rest, ∀ p ∈ fetch true (q.sensor_class.getD "") (q.sensor_id.getD ""),
            (parseFor das p.1).isSome = true := fun q hq => hp q (List.mem_cons_of_mem _ hq)
        rw [List.map_cons, List.nodup_cons] at hfk
        cases hemp : (fetch true c i).isEmpty with
        | true =>
          have hnil : fetch true c i = [] := List.isEmpty_iff.mp hemp
          have hfree1 : ∀ q ∈ rest, ∀ kv ∈ acc, refFieldKey q ∉ kv.2.fields.map Prod.fst :=
            fun q hq => hfree q (List.mem_cons_of_mem _ hq)
          obtain ⟨out, hout, hkeys, hget⟩ := ih acc (calls + 1) hvrest hndrest hprest hfk.2 hknd hfree1
          refine ⟨out, ?_, ?_, ?_⟩
          · rw [mergeSensors]
            simp only [hemp, if_pos]
            rw [hout]
            simp [Nat.add_comm, Nat.add_assoc, Nat.add_left_comm]
          · rw [hkeys, List.foldl_cons, hts, hnil]
            simp
          · intro t
            rw [hget t, hrf t]
            rw [hnil]
            simp [getA]
        | false =>
          obtain ⟨out1, hout1, hkeys1, hget1⟩ :=
            mergeItems_spec das (fieldKey c i) (fetch true c i) acc
              (by rw [← hts]; exact hnd _ (List.mem_cons_self _ _))
              (by
                intro p hpp
                exact hp _ (List.mem_cons_self _ _) p (by simpa using hpp))
          have hknd1 : (out1.map Prod.fst).Nodup := by
            rw [hkeys1, List.nodup_append]
            refine ⟨hknd, List.Nodup.filter _ (by rw [← hts]; exact hnd _ (List.mem_cons_self _ _)), ?_⟩
            intro x hx hx2
            have hx2m := List.of_mem_filter hx2
            exact (of_decide_eq_true hx2m) hx
          have hfree1 : ∀ q ∈ rest, ∀ kv ∈ out1, refFieldKey q ∉ kv.2.fields.map Prod.fst := by
            intro q hq kv hkv
            have hqfk : refFieldKey q ≠ fieldKey c i := by
              intro he
              rw [hfkhead] at hfk
              exact hfk.1 (he ▸ List.mem_map_of_mem refFieldKey hq)
            have hget_kv : getA kv.1 out1 = some kv.2 := mem_getA hknd1 (by simpa using hkv)
            rw [hget1 kv.1] at hget_kv
            cases hat : getA kv.1 acc with
            | some r0 =>
              have hr0mem : (kv.1, r0) ∈ acc := getA_mem hat
              have hq_r0 : refFieldKey q ∉ r0.fields.map Prod.fst := hfree q (List.mem_cons_of_mem _ hq) _ hr0mem
              cases hit : getA kv.1 (fetch true c i) with
              | some v =>
                rw [hat, hit] at hget_kv
                simp at hget_kv
                rw [← hget_kv]
                intro hcon
                rcases List.mem_append.mp (keys_setA_subset (fieldKey c i) v r0.fields hcon)
                  with h1 | h2
                · exact hq_r0 h1
                · simp at h2
                  exact hqfk h2
              | none =>
                rw [hat, hit] at hget_kv
                simp at hget_kv
                rw [← hget_kv]
                exact hq_r0
            | none =>
              cases hit : getA kv.1 (fetch true c i) with
              | some v =>
                rw [hat, hit] at hget_kv
                cases hdt : parseFor das kv.1 with
                | none => rw [hdt] at hget_kv; simp at hget_kv
                | some dt =>
                  rw [hdt] at hget_kv
                  simp at hget_kv
                  rw [← hget_kv]
                  simp
                  exact fun he => hqfk he
              | none =>
                rw [hat, hit] at hget_kv
                simp at hget_kv
          obtain ⟨out, hout, hkeys, hget⟩ := ih out1 (calls + 1) hvrest hndrest hprest hfk.2 hknd1 hfree1
          refine ⟨out, ?_, ?_, ?_⟩
          · rw [mergeSensors]
            simp only [hemp, Bool.false_eq_true, if_neg, hout1]
            rw [hout]
            simp [Nat.add_comm, Nat.add_assoc, Nat.add_left_comm]
          · rw [hkeys, List.foldl_cons, hts, ← hkeys1]
          · intro t
            rw [hget t, hrf t]
            have hfkfresh : ∀ r0, getA t acc = some r0 → (fieldKey c i) ∉ r0.fields.map Prod.fst := by
              intro r0 hat
              have := hfree _ (List.mem_cons_self _ _) _ (getA_mem hat)
              rw [hfkhead] at this
              exact this
            cases hat : getA t acc with
            | some r0 =>
              cases hit : getA t (fetch true c i) with
              | some v =>
                have h1 : getA t out1 = some { r0 with fields := setA (fieldKey c i) v r0.fields } := by
                  rw [hget1 t, hat, hit]
                rw [h1]
                have h2 : setA (fieldKey c i) v r0.fields = r0.fields ++ [(fieldKey c i, v)] :=
                  setA_of_getA_none v ((getA_eq_none_iff _ _).mpr (hfkfresh r0 hat))
                simp [h2]
              | none =>
                have h1 : getA t out1 = some r0 := by rw [hget1 t, hat, hit]
                rw [h1]
            | none =>
              cases hit : getA t (fetch true c i) with
              | some v =>
                have hdt : (parseFor das t).isSome = true := by
                  have hmem : (t, v) ∈ fetch true c i := getA_mem hit
                  exact hp _ (List.mem_cons_self _ _) (t, v) (by simpa using hmem)
                obtain ⟨dt, hdt2⟩ := Option.isSome_iff_exists.mp hdt
                have h1 : getA t out1 = some ⟨dt, [(fieldKey c i, v)]⟩ := by
                  rw [hget1 t, hat, hit, hdt2]
                  rfl
                rw [h1]
                simp [hdt2]
              | none =>
                have h1 : getA t out1 = none := by rw [hget1 t, hat, hit]
                rw [h1]

theorem foldl_dedup_batch (ts : List String) :
    ∀ ks : List String, ts.Nodup →
    ts.foldl (fun ks t => if t ∈ ks then ks else ks ++ [t]) ks =
      ks ++ ts.filter (fun t => decide (t ∉ ks)) := by
  induction ts with
  | nil => intro ks _; simp
  | cons t rest ih =>
    intro ks hnd
    rw [List.nodup_cons] at hnd
    rw [List.foldl_cons, List.filter_cons]
    by_cases hmem : t ∈ ks
    · rw [if_pos hmem, ih ks hnd.2]
      simp [hmem]
    · rw [if_neg hmem, ih (ks ++ [t]) hnd.2]
      have : rest.filter (fun x => decide (x ∉ ks ++ [t])) =
          rest.filter (fun x => decide (x ∉ ks)) := by
        apply List.filter_congr
        intro x hx
        have hxt : x ≠ t := fun he => hnd.1 (he ▸ hx)
        simp [hxt]
      rw [this]
      simp [hmem]

theorem foldl_dedup_flatten (tss : List (List String)) :
    ∀ ks : List String, (∀ ts ∈ tss, ts.Nodup) →
    tss.foldl (fun ks ts => ks ++ ts.filter (fun t => decide (t ∉ ks))) ks =
      tss.flatten.foldl (fun ks t => if t ∈ ks then ks else ks ++ [t]) ks := by
  induction tss with
  | nil => intro ks _; simp
  | cons ts rest ih =>
    intro ks hnd
    rw [List.foldl_cons, List.flatten_cons, List.foldl_append]
    rw [← foldl_dedup_batch ts ks (hnd ts (List.mem_cons_self _ _))]
    exact ih _ (fun q hq => hnd q (List.mem_cons_of_mem _ hq))

theorem firstDedup_eq_batch (refs : List SensorRef)
    (fetch : Bool → String → String → List (String × Val))
    (hnd : ∀ r ∈ refs, (sensorTimestamps fetch r).Nodup) :
    refs.foldl
      (fun ks r => ks ++ (sensorTimestamps fetch r).filter (fun t => decide (t ∉ ks))) [] =
      firstDedup (refs.flatMap (sensorTimestamps fetch)) := by
  rw [firstDedup]
  have h1 : refs.flatMap (sensorTimestamps fetch) = (refs.map (sensorTimestamps fetch)).flatten := rfl
  rw [h1, ← foldl_dedup_flatten _ _ (by
    intro ts hts
    obtain ⟨r, hr, hre⟩ := List.mem_map.mp hts
    exact hre ▸ hnd r hr)]
  rw [List.foldl_map]

theorem foldl_dedup_nodup (l : List String) :
    ∀ ks : List String, ks.Nodup →
    (l.foldl (fun ks t => if t ∈ ks then ks else ks ++ [t]) ks).Nodup := by
  induction l with
  | nil => exact fun ks h => h
  | cons t rest ih =>
    intro ks hnd
    rw [List.foldl_cons]
    by_cases hmem : t ∈ ks
    · rw [if_pos hmem]
      exact ih ks hnd
    · rw [if_neg hmem]
      refine ih _ ?_
      rw [List.nodup_append]
      exact ⟨hnd, List.nodup_singleton t,
        fun a ha hat => hmem ((List.mem_singleton.mp hat) ▸ ha)⟩

theorem firstDedup_nodup (l : List String) : (firstDedup l).Nodup :=
  foldl_dedup_nodup l [] List.nodup_nil

theorem mem_foldl_dedup (l : List String) :
    ∀ (ks : List String) (x : String),
    x ∈ l.foldl (fun ks t => if t ∈ ks then ks else ks ++ [t]) ks ↔ x ∈ ks ∨ x ∈ l := by
  induction l with
  | nil => intro ks x; simp
  | cons t rest ih =>
    intro ks x
    rw [List.foldl_cons]
    by_cases hmem : t ∈ ks
    · rw [if_pos hmem, ih]
      constructor
      · rintro (h | h)
        · exact .inl h
        · exact .inr (List.mem_cons_of_mem _ h)
      · rintro (h | h)
        · exact .inl h
        · rcases List.mem_cons.mp h with rfl | h2
          · exact .inl hmem
          · exact .inr h2
    · rw [if_neg hmem, ih]
      simp only [List.mem_append, List.mem_cons, List.mem_singleton]
      tauto

theorem mem_firstDedup (l : List String) (x : String) : x ∈ firstDedup l ↔ x ∈ l := by
  rw [firstDedup, mem_foldl_dedup]
  simp

/-! ## Claim C9: sparse merge, one record per distinct timestamp -/

/-- C9: under the upstream contract (well-formed references, per-sensor
mappings with distinct timestamps, timestamps parseable in the selected
format, distinct field keys), the merge produces exactly the
specification records `mergeSpec`: one record per distinct timestamp in
first-seen order, whose fields are precisely the `"{class}:{id}"`
entries of the sensors that reported that timestamp (no null filling),
and `get_data_for_sensors` returns their values in that order. -/
theorem C9_sparse_merge (fetch : Bool → String → String → List (String × Val))
    (das : Bool) (refs : List SensorRef)
    (hv : ∀ r ∈ refs, validRef r = true)
    (hnd : ∀ r ∈ refs, (sensorTimestamps fetch r).Nodup)
    (hp : ∀ r ∈ refs, ∀ p ∈ fetch true (r.sensor_class.getD "") (r.sensor_id.getD ""),
        (parseFor das p.1).isSome = true)
    (hfk : (refs.map refFieldKey).Nodup) :
    mergeSensors fetch das [] 0 refs = (.ok (mergeSpec fetch das refs), refs.length) ∧
    get_data_for_sensors fetch refs das =
      (.ok ((mergeSpec fetch das refs).map Prod.snd), refs.length) := by
  obtain ⟨out, hout, hkeys, hget⟩ :=
    mergeSensors_spec fetch das refs [] 0 hv hnd hp hfk (by simp) (by simp)
  have hkeys2 : out.map Prod.fst = firstDedup (refs.flatMap (sensorTimestamps fetch)) := by
    rw [hkeys]
    simpa using firstDedup_eq_batch refs fetch hnd
  have hout_eq : out = mergeSpec fetch das refs := by
    rw [mergeSpec]
    apply assoc_eq_map_of_getA out _ _ hkeys2 (firstDedup_nodup _)
    intro t ht
    have htmem : t ∈ refs.flatMap (sensorTimestamps fetch) := (mem_firstDedup _ _).mp ht
    obtain ⟨r, hr, htr⟩ := List.mem_flatMap.mp htmem
    have hsome : (getA t (fetch true (r.sensor_class.getD "") (r.sensor_id.getD ""))).isSome = true :=
      (getA_isSome_iff _ _).mpr (by simpa [sensorTimestamps] using htr)
    obtain ⟨v, hvv⟩ := Option.isSome_iff_exists.mp hsome
    have hne : reportedFields fetch refs t ≠ [] := by
      have hmem2 : (fieldKey (r.sensor_class.getD "") (r.sensor_id.getD ""), v) ∈
          reportedFields fetch refs t := by
        rw [reportedFields]
        exact List.mem_filterMap.mpr ⟨r, hr, by rw [hvv]; rfl⟩
      exact List.ne_nil_of_mem hmem2
    have hpt : (parseFor das t).isSome = true := hp r hr (t, v) (getA_mem hvv)
    obtain ⟨dt, hdt⟩ := Option.isSome_iff_exists.mp hpt
    rw [hget t]
    simp only [getA]
    rw [if_neg (by simpa using hne), hdt]
    simp [hdt]
  constructor
  · rw [hout, hout_eq]
    simp
  · cases refs with
    | nil =>
      simp [get_data_for_sensors, mergeSpec, firstDedup]
    | cons r rest =>
      rw [get_data_for_sensors, if_neg (by simp), hout, hout_eq]
      simp

/-- Witness for C9: sensor `A` reporting timestamps t1 and t2 and
sensor `B` reporting t2 and t3 satisfy all hypotheses, and the merge
equals the specification records. -/
theorem C9_sparse_merge_witness :
    (∀ r ∈ [(⟨some "S", some "A"⟩ : SensorRef), ⟨some "S", some "B"⟩], validRef r = true) ∧
    (∀ r ∈ [(⟨some "S", some "A"⟩ : SensorRef), ⟨some "S", some "B"⟩],
        (sensorTimestamps fetchAB r).Nodup) ∧
    (∀ r ∈ [(⟨some "S", some "A"⟩ : SensorRef), ⟨some "S", some "B"⟩],
        ∀ p ∈ fetchAB true (r.sensor_class.getD "") (r.sensor_id.getD ""),
        (parseFor true p.1).isSome = true) ∧
    (([(⟨some "S", some "A"⟩ : SensorRef), ⟨some "S", some "B"⟩].map refFieldKey).Nodup) ∧
    (mergeSensors fetchAB true [] 0 [⟨some "S", some "A"⟩, ⟨some "S", some "B"⟩] =
        (.ok (mergeSpec fetchAB true [⟨some "S", some "A"⟩, ⟨some "S", some "B"⟩]),
          ([(⟨some "S", some "A"⟩ : SensorRef), ⟨some "S", some "B"⟩] : List SensorRef).length) ∧
     get_data_for_sensors fetchAB [⟨some "S", some "A"⟩, ⟨some "S", some "B"⟩] true =
        (.ok ((mergeSpec fetchAB true
            [⟨some "S", some "A"⟩, ⟨some "S", some "B"⟩]).map Prod.snd),
          ([(⟨some "S", some "A"⟩ : SensorRef), ⟨some "S", some "B"⟩] : List SensorRef).length)) :=
  ⟨by decide, by decide, by decide, by decide,
    C9_sparse_merge fetchAB true _ (by decide) (by decide) (by decide) (by decide)⟩

/-- The sparse-merge example in concrete form: sensors A (t1, t2) and
B (t2, t3) yield exactly three composite records in first-seen order,
with both fields populated only at t2. -/
theorem mergeAB_concrete :
    get_data_for_sensors fetchAB [⟨some "S", some "A"⟩, ⟨some "S", some "B"⟩] true =
      (.ok [⟨⟨2024, 1, 1, 0, 0, 0⟩, [("S:A", 1)]⟩,
            ⟨⟨2024, 1, 1, 0, 10, 0⟩, [("S:A", 2), ("S:B", 3)]⟩,
            ⟨⟨2024, 1, 1, 0, 20, 0⟩, [("S:B", 4)]⟩], 2) := by decide

theorem char_toNat_inj {a b : Char} (h : a.toNat = b.toNat) : a = b :=
  Char.ext (UInt32.ext h)

theorem charsLe_total : ∀ (a b : List Char), charsLe a b = true ∨ charsLe b a = true
  | [], _ => .inl rfl
  | _ :: _, [] => .inr rfl
  | x :: xs, y :: ys => by
    by_cases hxy : x.toNat < y.toNat
    · exact .inl (by simp [charsLe, hxy])
    · by_cases hyx : y.toNat < x.toNat
      · exact .inr (by simp [charsLe, hyx])
      · rcases charsLe_total xs ys with h | h
        · exact .inl (by simp [charsLe, hxy, hyx, h])
        · exact .inr (by simp [charsLe, hyx, hxy, h])

theorem charsLe_trans : ∀ (a b c : List Char),
    charsLe a b = true → charsLe b c = true → charsLe a c = true
  | [], _, _, _, _ => rfl
  | _ :: _, [], _, h, _ => by simp [charsLe] at h
  | _ :: _, _ :: _, [], _, h => by simp [charsLe] at h
  | x :: xs, y :: ys, z :: zs, h1, h2 => by
    by_cases hxy : x.toNat < y.toNat
    · by_cases hyz : y.toNat < z.toNat
      · simp [charsLe, Nat.lt_trans hxy hyz]
      · by_cases hzy : z.toNat < y.toNat
        · simp [charsLe, hyz, hzy] at h2
        · have hxz : x.toNat < z.toNat := by omega
          simp [charsLe, hxz]
    · by_cases hyx : y.toNat < x.toNat
      · simp [charsLe, hxy, hyx] at h1
      · by_cases hyz : y.toNat < z.toNat
        · have hxz : x.toNat < z.toNat := by omega
          simp [charsLe, hxz]
        · by_cases hzy : z.toNat < y.toNat
          · simp [charsLe, hyz, hzy] at h2
          · have hxz1 : ¬x.toNat < z.toNat := by omega
            have hxz2 : ¬z.toNat < x.toNat := by omega
            simp [charsLe, hxy, hyx] at h1
            simp [charsLe, hyz, hzy] at h2
            simp [charsLe, hxz1, hxz2]
            exact charsLe_trans xs ys zs h1 h2

theorem charsLe_antisymm : ∀ (a b : List Char),
    charsLe a b = true → charsLe b a = true → a = b
  | [], [], _, _ => rfl
  | _ :: _, [], h, _ => by simp [charsLe] at h
  | [], _ :: _, _, h => by simp [charsLe] at h
  | x :: xs, y :: ys, h1, h2 => by
    by_cases hxy : x.toNat < y.toNat
    · simp [charsLe, hxy] at h2
      omega
    · by_cases hyx : y.toNat < x.toNat
      · simp [charsLe, hxy, hyx] at h1
      · have hx : x = y := char_toNat_inj (by omega)
        simp [charsLe, hxy, hyx] at h1 h2
        rw [hx, charsLe_antisymm xs ys h1 h2]

theorem strLe_total (s t : String) : strLe s t = true ∨ strLe t s = true :=
  charsLe_total s.data t.data

theorem strLe_trans {s t u : String} (h1 : strLe s t = true) (h2 : strLe t u = true) :
    strLe s u = true :=
  charsLe_trans s.data t.data u.data h1 h2

theorem strLe_antisymm {s t : String} (h1 : strLe s t = true) (h2 : strLe t s = true) :
    s = t := by
  obtain ⟨sd⟩ := s
  obtain ⟨td⟩ := t
  have := charsLe_antisymm sd td h1 h2
  rw [this]

theorem strLe_refl (s : String) : strLe s s = true := by
  rcases strLe_total s s with h | h <;> exact h

theorem eq_of_perm_sorted_keys {α κ : Type} (key : α → κ) (le : α → α → Prop)
    (hanti : ∀ a b, le a b → le b a → key a = key b) :
    ∀ (l₁ l₂ : List α), l₁.Perm l₂ → l₁.Pairwise le → l₂.Pairwise le →
      (l₁.map key).Nodup → l₁ = l₂ := by
  intro l₁
  induction l₁ with
  | nil =>
    intro l₂ hp _ _ _
    exact hp.nil_eq
  | cons a t₁ ih =>
    intro l₂ hp hs₁ hs₂ hnd
    cases l₂ with
    | nil =>
      have := hp.length_eq
      simp at this
    | cons b t₂ =>
      rw [List.map_cons, List.nodup_cons] at hnd
      have hab : a = b := by
        by_contra hne
        have ha_t2 : a ∈ t₂ := by
          rcases List.mem_cons.mp (hp.mem_iff.mp (List.mem_cons_self _ _)) with h | h
          · exact absurd h hne
          · exact h
        have hb_t1 : b ∈ t₁ := by
          rcases List.mem_cons.mp (hp.mem_iff.mpr (List.mem_cons_self _ _)) with h | h
          · exact absurd h.symm hne
          · exact h
        have h1 : le a b := (List.pairwise_cons.mp hs₁).1 b hb_t1
        have h2 : le b a := (List.pairwise_cons.mp hs₂).1 a ha_t2
        exact hnd.1 ((hanti a b h1 h2) ▸ List.mem_map_of_mem key hb_t1)
      subst hab
      rw [ih t₂ hp.cons_inv (List.pairwise_cons.mp hs₁).2 (List.pairwise_cons.mp hs₂).2 hnd.2]

section MoreAssoc

variable {κ β : Type} [DecidableEq κ]

theorem modifyA_setA (k : κ) (f : β → β) (v : β) (l : List (κ × β)) :
    modifyA k f (setA k v l) = setA k (f v) l := by
  induction l with
  | nil => simp [setA, modifyA]
  | cons p rest ih =>
    obtain ⟨k2, v2⟩ := p
    by_cases h : k2 = k
    · subst h; simp [setA, modifyA]
    · simp [setA, modifyA, h, ih]

theorem modifyA_eq_setA {k : κ} {v : β} {l : List (κ × β)} (f : β → β)
    (h : getA k l = some v) : modifyA k f l = setA k (f v) l := by
  induction l with
  | nil => simp [getA] at h
  | cons p rest ih =>
    obtain ⟨k2, v2⟩ := p
    by_cases hk : k2 = k
    · subst hk
      simp [getA] at h
      subst h
      simp [setA, modifyA]
    · simp [getA, hk] at h
      simp [setA, modifyA, hk, ih h]

theorem keys_setA_of_getA_some {k : κ} {v0 : β} (v : β) {l : List (κ × β)}
    (h : getA k l = some v0) : (setA k v l).map Prod.fst = l.map Prod.fst := by
  induction l with
  | nil => simp [getA] at h
  | cons p rest ih =>
    obtain ⟨k2, v2⟩ := p
    by_cases hk : k2 = k
    · subst hk; simp [setA]
    · simp [getA, hk] at h
      simp [setA, hk, ih h]

theorem keys_setA_nodup {k : κ} (v : β) {l : List (κ × β)}
    (h : (l.map Prod.fst).Nodup) : ((setA k v l).map Prod.fst).Nodup := by
  cases hg : getA k l with
  | some v0 => rw [keys_setA_of_getA_some v hg]; exact h
  | none =>
    rw [setA_of_getA_none v hg]
    rw [List.map_append, List.nodup_append]
    exact ⟨h, by simp, fun x hx hx2 => ((getA_eq_none_iff k l).mp hg)
      ((List.mem_singleton.mp (by simpa using hx2)) ▸ hx)⟩

end MoreAssoc

theorem aggStep_skip (idx : List ((Coord × Coord) × StationEntry)) (p : String × RawSensor)
    (h : sensorKey p = none) : aggStep idx p = idx := by
  rw [aggStep]
  rw [sensorKey] at h
  cases hlat : p.2.lat with
  | none => simp [hlat]
  | some lat =>
    cases hlng : p.2.lng with
    | none => simp [hlat, hlng]
    | some lng => rw [hlat, hlng] at h; simp at h

theorem aggStep_key (idx : List ((Coord × Coord) × StationEntry)) (p : String × RawSensor)
    (k : Coord × Coord) (h : sensorKey p = some k) :
    aggStep idx p = setA k (updateEntry p.1 p.2 (match getA k idx with
      | some st => st
      | none => mkStationEntry k.1 k.2 (cleanName p.2.name))) idx := by
  rw [aggStep, sensorKey] at *
  cases hlat : p.2.lat with
  | none => rw [hlat] at h; simp at h
  | some lat =>
    cases hlng : p.2.lng with
    | none => rw [hlat, hlng] at h; simp at h
    | some lng =>
      rw [hlat, hlng] at h
      simp at h
      subst h
      simp only [hlat, hlng]
      cases hg : getA (lat, lng) idx with
      | some st =>
        simpa using modifyA_eq_setA (updateEntry p.1 p.2) hg
      | none =>
        simpa using modifyA_setA (lat, lng) (updateEntry p.1 p.2)
          (mkStationEntry lat lng (cleanName p.2.name)) idx

theorem aggFold_getA (pairs : List (String × RawSensor)) :
    ∀ (idx : List ((Coord × Coord) × StationEntry)) (k : Coord × Coord),
    getA k (pairs.foldl aggStep idx) =
      (pairs.filter (fun p => sensorKey p = some k)).foldl (entryStep k) (getA k idx) := by
  induction pairs with
  | nil => intro idx k; rfl
  | cons p rest ih =>
    intro idx k
    rw [List.foldl_cons]
    cases hk : sensorKey p with
    | none =>
      have hfil : (p :: rest).filter (fun q => sensorKey q = some k) =
          rest.filter (fun q => sensorKey q = some k) := by
        rw [List.filter_cons]
        simp [hk]
      rw [aggStep_skip idx p hk, hfil]
      exact ih idx k
    | some k2 =>
      by_cases hkk : k2 = k
      · subst hkk
        have hfil : (p :: rest).filter (fun q => sensorKey q = some k2) =
            p :: rest.filter (fun q => sensorKey q = some k2) := by
          rw [List.filter_cons]
          simp [hk]
        rw [aggStep_key idx p k2 hk, hfil, List.foldl_cons, ih]
        congr 1
        rw [getA_setA_self, entryStep.eq_def]
      · have hfil : (p :: rest).filter (fun q => sensorKey q = some k) =
            rest.filter (fun q => sensorKey q = some k) := by
          rw [List.filter_cons]
          simp [hk, hkk]
        rw [aggStep_key idx p k2 hk, hfil, ih]
        congr 1
        exact getA_setA_ne _ _ (Ne.symm hkk)

theorem aggFold_keys_nodup (pairs : List (String × RawSensor)) :
    ∀ idx : List ((Coord × Coord) × StationEntry),
    ((idx.map Prod.fst).Nodup) → (((pairs.foldl aggStep idx).map Prod.fst).Nodup) := by
  induction pairs with
  | nil => exact fun idx h => h
  | cons p rest ih =>
    intro idx h
    rw [List.foldl_cons]
    apply ih
    cases hk : sensorKey p with
    | none => rw [aggStep_skip idx p hk]; exact h
    | some k => rw [aggStep_key idx p k hk]; exact keys_setA_nodup _ h

theorem updateEntry_id (c : String) (s : RawSensor) (st : StationEntry) :
    (updateEntry c s st).station_id = st.station_id ∧
    (updateEntry c s st).station_name = st.station_name ∧
    (updateEntry c s st).lat = st.lat ∧ (updateEntry c s st).lng = st.lng := by
  simp [updateEntry]

theorem entryFold_from_some (k : Coord × Coord) :
    ∀ (ps : List (String × RawSensor)) (st : StationEntry),
    ∃ e, ps.foldl (entryStep k) (some st) = some e ∧
      e.station_id = st.station_id ∧ e.station_name = st.station_name ∧
      e.lat = st.lat ∧ e.lng = st.lng ∧
      e.parameters = paramFold ps st.parameters := by
  intro ps
  induction ps with
  | nil => exact fun st => ⟨st, rfl, rfl, rfl, rfl, rfl, rfl⟩
  | cons p rest ih =>
    intro st
    obtain ⟨e, he, h1, h2, h3, h4, h5⟩ := ih (updateEntry p.1 p.2 st)
    refine ⟨e, ?_, ?_, ?_, ?_, ?_, ?_⟩
    · rw [List.foldl_cons]; exact he
    · rw [h1, (updateEntry_id p.1 p.2 st).1]
    · rw [h2, (updateEntry_id p.1 p.2 st).2.1]
    · rw [h3, (updateEntry_id p.1 p.2 st).2.2.1]
    · rw [h4, (updateEntry_id p.1 p.2 st).2.2.2]
    · rw [h5]
      simp [updateEntry, paramFold]

theorem entryFold_cons_spec (k : Coord × Coord) (p : String × RawSensor)
    (ps : List (String × RawSensor)) :
    ∃ e, entryFold k (p :: ps) = some e ∧
      e.station_id = generate_station_id k.1 k.2 ∧
      e.station_name = cleanName p.2.name ∧
      e.lat = k.1 ∧ e.lng = k.2 ∧
      e.parameters = paramFold (p :: ps) [] := by
  obtain ⟨e, he, h1, h2, h3, h4, h5⟩ :=
    entryFold_from_some k ps (updateEntry p.1 p.2 (mkStationEntry k.1 k.2 (cleanName p.2.name)))
  refine ⟨e, ?_, ?_, ?_, ?_, ?_, ?_⟩
  · rw [entryFold, List.foldl_cons]
    exact he
  · rw [h1, (updateEntry_id _ _ _).1]; rfl
  · rw [h2, (updateEntry_id _ _ _).2.1]; rfl
  · rw [h3, (updateEntry_id _ _ _).2.2.1]; rfl
  · rw [h4, (updateEntry_id _ _ _).2.2.2]; rfl
  · rw [h5]
    simp [updateEntry, mkStationEntry, paramFold]

theorem updateEntryParams_eq_setA (c : String) (s : RawSensor)
    (ps : List (String × ParamMeta)) :
    updateEntryParams c s ps = setA c (metaStep s (match getA c ps with
      | some m => m
      | none => ⟨s.mu, []⟩)) ps := by
  cases hg : getA c ps with
  | some m =>
    rw [updateEntryParams]
    simp only [hg, Option.isSome_some, if_true]
    rw [modifyA_eq_setA _ hg]
    cases hid : s.id with
    | none => simp [metaStep, hid]
    | some sid =>
      by_cases hemp : sid.data.isEmpty
      · simp [metaStep, hid, hemp]
      · simp only [hid, hemp, Bool.false_eq_true, if_neg, not_false_iff]
        rw [modifyA_setA]
        simp [metaStep, hid, hemp]
  | none =>
    rw [updateEntryParams]
    simp only [hg, Option.isSome_none, Bool.false_eq_true, if_neg, not_false_iff]
    rw [modifyA_setA]
    cases hid : s.id with
    | none => simp [metaStep, hid]
    | some sid =>
      by_cases hemp : sid.data.isEmpty
      · simp [metaStep, hid, hemp]
      · simp only [hid, hemp, Bool.false_eq_true, if_neg, not_false_iff]
        rw [modifyA_setA]
        simp [metaStep, hid, hemp]

theorem paramFold_getA (c : String) :
    ∀ (qs : List (String × RawSensor)) (init : List (String × ParamMeta)),
    getA c (paramFold qs init) =
      (qs.filter (fun q => q.1 = c)).foldl metaFoldStep (getA c init) := by
  intro qs
  induction qs with
  | nil => intro init; rfl
  | cons q rest ih =>
    intro init
    rw [paramFold, List.foldl_cons]
    by_cases hc : q.1 = c
    · have hfil : (q :: rest).filter (fun q => q.1 = c) =
          q :: rest.filter (fun q => q.1 = c) := by
        rw [List.filter_cons]
        simp [hc]
      rw [hfil, List.foldl_cons]
      have : getA c (updateEntryParams q.1 q.2 init) = metaFoldStep (getA c init) q := by
        rw [updateEntryParams_eq_setA, hc, getA_setA_self, metaFoldStep.eq_def]
      rw [← this]
      exact ih (updateEntryParams q.1 q.2 init)
    · have hfil : (q :: rest).filter (fun q => q.1 = c) =
          rest.filter (fun q => q.1 = c) := by
        rw [List.filter_cons]
        simp [hc]
      rw [hfil]
      have : getA c (updateEntryParams q.1 q.2 init) = getA c init := by
        rw [updateEntryParams_eq_setA]
        exact getA_setA_ne _ _ (fun he => hc (he ▸ rfl))
      rw [← this]
      exact ih (updateEntryParams q.1 q.2 init)

theorem paramFold_keys_nodup :
    ∀ (qs : List (String × RawSensor)) (init : List (String × ParamMeta)),
    ((init.map Prod.fst).Nodup) → (((paramFold qs init).map Prod.fst).Nodup) := by
  intro qs
  induction qs with
  | nil => exact fun init h => h
  | cons q rest ih =>
    intro init h
    rw [paramFold, List.foldl_cons]
    exact ih _ (by rw [updateEntryParams_eq_setA]; exact keys_setA_nodup _ h)

theorem metaStep_unit (s : RawSensor) (m : ParamMeta) :
    (metaStep s m).unit = if truthyStr s.mu && !truthyStr m.unit then s.mu else m.unit := by
  cases hid : s.id with
  | none =>
    simp only [metaStep, hid]
    by_cases hc : (truthyStr s.mu && !truthyStr m.unit) = true
    · simp [hc]
    · simp [hc]
  | some sid =>
    by_cases hemp : sid.data.isEmpty <;>
      by_cases hc : (truthyStr s.mu && !truthyStr m.unit) = true <;>
        simp [metaStep, hid, hemp, hc]

theorem metaStep_ids (s : RawSensor) (m : ParamMeta) (sid : String) :
    ((s.id = none ∨ (s.id = some sid ∧ sid.data.isEmpty = true)) →
      (metaStep s m).sensor_ids = m.sensor_ids) ∧
    (s.id = some sid → sid.data.isEmpty = false →
      (metaStep s m).sensor_ids = addToSet sid m.sensor_ids) := by
  constructor
  · rintro (hid | ⟨hid, hemp⟩)
    · by_cases hc : (truthyStr s.mu && !truthyStr m.unit) = true <;>
        simp [metaStep, hid, hc]
    · by_cases hc : (truthyStr s.mu && !truthyStr m.unit) = true <;>
        simp [metaStep, hid, hemp, hc]
  · intro hid hemp
    by_cases hc : (truthyStr s.mu && !truthyStr m.unit) = true <;>
      simp [metaStep, hid, hemp, hc]

theorem metaFold_unit_truthy :
    ∀ (qs : List (String × RawSensor)) (m0 : ParamMeta), truthyStr m0.unit = true →
    ∃ m1, qs.foldl metaFoldStep (some m0) = some m1 ∧ m1.unit = m0.unit := by
  intro qs
  induction qs with
  | nil => exact fun m0 _ => ⟨m0, rfl, rfl⟩
  | cons q rest ih =>
    intro m0 htr
    have hu : (metaStep q.2 m0).unit = m0.unit := by
      rw [metaStep_unit, htr]
      simp
    obtain ⟨m1, hm1, hm1u⟩ := ih (metaStep q.2 m0) (by rw [hu]; exact htr)
    exact ⟨m1, by rw [List.foldl_cons]; exact hm1, by rw [hm1u, hu]⟩

theorem metaFold_unit_first_truthy :
    ∀ (qs : List (String × RawSensor)) (m : Option ParamMeta) (q0 : String × RawSensor),
    (m = none ∨ ∃ m0, m = some m0 ∧ truthyStr m0.unit = false) →
    qs.find? (fun q => truthyStr q.2.mu) = some q0 →
    ∃ m1, qs.foldl metaFoldStep m = some m1 ∧ m1.unit = q0.2.mu := by
  intro qs
  induction qs with
  | nil => intro m q0 _ hf; simp at hf
  | cons q rest ih =>
    intro m q0 hm hf
    cases htr : truthyStr q.2.mu with
    | true =>
      rw [List.find?_cons_of_pos rest
        (show (fun q : String × RawSensor => truthyStr q.2.mu) q = true from htr)] at hf
      injection hf with hf
      subst hf
      have hbase : ∀ base : ParamMeta,
          (base = ⟨q.2.mu, []⟩ ∨ truthyStr base.unit = false) →
          (metaStep q.2 base).unit = q.2.mu := by
        intro base hb
        rw [metaStep_unit]
        rcases hb with rfl | hb
        · by_cases h : (truthyStr q.2.mu && !truthyStr (ParamMeta.mk q.2.mu []).unit) = true
          · rw [if_pos h]
          · rw [if_neg h]
        · rw [htr, hb]
          simp
      rcases hm with rfl | ⟨m0, rfl, hm0⟩
      · rw [List.foldl_cons]
        have hu := hbase ⟨q.2.mu, []⟩ (.inl rfl)
        obtain ⟨m1, hm1, hm1u⟩ := metaFold_unit_truthy rest (metaStep q.2 ⟨q.2.mu, []⟩)
          (by rw [hu]; exact htr)
        exact ⟨m1, by simpa [metaFoldStep] using hm1, by rw [hm1u, hu]⟩
      · rw [List.foldl_cons]
        have hu := hbase m0 (.inr hm0)
        obtain ⟨m1, hm1, hm1u⟩ := metaFold_unit_truthy rest (metaStep q.2 m0)
          (by rw [hu]; exact htr)
        exact ⟨m1, by simpa [metaFoldStep] using hm1, by rw [hm1u, hu]⟩
    | false =>
      rw [List.find?_cons_of_neg rest
        (show ¬((fun q : String × RawSensor => truthyStr q.2.mu) q = true) by
          simp [htr])] at hf
      have hstep : ∀ base : ParamMeta, truthyStr base.unit = false →
          truthyStr (metaStep q.2 base).unit = false := by
        intro base hb
        rw [metaStep_unit, htr]
        simpa using hb
      rcases hm with rfl | ⟨m0, rfl, hm0⟩
      · rw [List.foldl_cons]
        refine ih (metaFoldStep none q) q0 (.inr ⟨metaStep q.2 ⟨q.2.mu, []⟩, rfl, ?_⟩) hf
        exact hstep ⟨q.2.mu, []⟩ (by simpa [truthyStr] using htr)
      · rw [List.foldl_cons]
        exact ih (metaFoldStep (some m0) q) q0 (.inr ⟨metaStep q.2 m0, rfl, hstep m0 hm0⟩) hf

theorem addToSet_nodup (x : String) (s : List String) (h : s.Nodup) : (addToSet x s).Nodup := by
  rw [addToSet]
  by_cases hmem : x ∈ s
  · rw [if_pos hmem]; exact h
  · rw [if_neg hmem, List.nodup_append]
    exact ⟨h, List.nodup_singleton x, fun a ha hax => hmem ((List.mem_singleton.mp hax) ▸ ha)⟩

theorem mem_addToSet (x y : String) (s : List String) :
    y ∈ addToSet x s ↔ y ∈ s ∨ y = x := by
  rw [addToSet]
  by_cases hmem : x ∈ s
  · rw [if_pos hmem]
    constructor
    · exact fun h => .inl h
    · rintro (h | rfl)
      · exact h
      · exact hmem
  · rw [if_neg hmem]
    simp

theorem metaFold_ids :
    ∀ (qs : List (String × RawSensor)) (m0 : ParamMeta), m0.sensor_ids.Nodup →
    ∃ m1, qs.foldl metaFoldStep (some m0) = some m1 ∧ m1.sensor_ids.Nodup ∧
      (∀ x, x ∈ m1.sensor_ids ↔ x ∈ m0.sensor_ids ∨
        ∃ q ∈ qs, q.2.id = some x ∧ x.data.isEmpty = false) := by
  intro qs
  induction qs with
  | nil =>
    intro m0 hnd
    exact ⟨m0, rfl, hnd, fun x => by simp⟩
  | cons q rest ih =>
    intro m0 hnd
    cases hid : q.2.id with
    | none =>
      have hids2 : (metaStep q.2 m0).sensor_ids = m0.sensor_ids :=
        (metaStep_ids q.2 m0 "").1 (.inl hid)
      obtain ⟨m1, hm1, hm1nd, hm1mem⟩ := ih (metaStep q.2 m0) (by rw [hids2]; exact hnd)
      refine ⟨m1, by rw [List.foldl_cons]; exact hm1, hm1nd, ?_⟩
      intro x
      rw [hm1mem x, hids2]
      constructor
      · rintro (h | ⟨q2, hq2, h1, h2⟩)
        · exact .inl h
        · exact .inr ⟨q2, List.mem_cons_of_mem _ hq2, h1, h2⟩
      · rintro (h | ⟨q2, hq2, h1, h2⟩)
        · exact .inl h
        · rcases List.mem_cons.mp hq2 with rfl | hq3
          · rw [hid] at h1; exact absurd h1 (by simp)
          · exact .inr ⟨q2, hq3, h1, h2⟩
    | some sid =>
      cases hemp : sid.data.isEmpty with
      | true =>
        have hids2 : (metaStep q.2 m0).sensor_ids = m0.sensor_ids :=
          (metaStep_ids q.2 m0 sid).1 (.inr ⟨hid, hemp⟩)
        obtain ⟨m1, hm1, hm1nd, hm1mem⟩ := ih (metaStep q.2 m0) (by rw [hids2]; exact hnd)
        refine ⟨m1, by rw [List.foldl_cons]; exact hm1, hm1nd, ?_⟩
        intro x
        rw [hm1mem x, hids2]
        constructor
        · rintro (h | ⟨q2, hq2, h1, h2⟩)
          · exact .inl h
          · exact .inr ⟨q2, List.mem_cons_of_mem _ hq2, h1, h2⟩
        · rintro (h | ⟨q2, hq2, h1, h2⟩)
          · exact .inl h
          · rcases List.mem_cons.mp hq2 with rfl | hq3
            · rw [hid] at h1
              injection h1 with h1
              subst h1
              rw [hemp] at h2
              exact absurd h2 (by simp)
            · exact .inr ⟨q2, hq3, h1, h2⟩
      | false =>
        have hids2 : (metaStep q.2 m0).sensor_ids = addToSet sid m0.sensor_ids :=
          (metaStep_ids q.2 m0 sid).2 hid hemp
        obtain ⟨m1, hm1, hm1nd, hm1mem⟩ :=
          ih (metaStep q.2 m0) (by rw [hids2]; exact addToSet_nodup sid _ hnd)
        refine ⟨m1, by rw [List.foldl_cons]; exact hm1, hm1nd, ?_⟩
        intro x
        rw [hm1mem x, hids2, mem_addToSet]
        constructor
        · rintro ((h | rfl) | ⟨q2, hq2, h1, h2⟩)
          · exact .inl h
          · exact .inr ⟨q, List.mem_cons_self _ _, hid, hemp⟩
          · exact .inr ⟨q2, List.mem_cons_of_mem _ hq2, h1, h2⟩
        · rintro (h | ⟨q2, hq2, h1, h2⟩)
          · exact .inl (.inl h)
          · rcases List.mem_cons.mp hq2 with rfl | hq3
            · rw [hid] at h1
              injection h1 with h1
              exact .inl (.inr h1.symm)
            · exact .inr ⟨q2, hq3, h1, h2⟩

theorem buildIndex_getA (pairs : List (String × RawSensor)) (k : Coord × Coord) :
    getA k (buildIndex pairs) =
      entryFold k (pairs.filter (fun p => sensorKey p = some k)) := by
  rw [buildIndex, aggFold_getA, entryFold]
  rfl

theorem buildIndex_keys_nodup (pairs : List (String × RawSensor)) :
    (((buildIndex pairs).map Prod.fst).Nodup) :=
  aggFold_keys_nodup pairs [] (by simp)

theorem mem_aggregatePairs (pairs : List (String × RawSensor)) (st : StationOut) :
    st ∈ aggregatePairs pairs ↔
      ∃ kv ∈ buildIndex pairs, finalizeEntry kv.2 = st := by
  rw [aggregatePairs]
  rw [(List.perm_insertionSort stationLe _).mem_iff]
  simp [List.mem_map]

/-! ## Claim C8: parameter unit precedence -/

/-- C8: for any station key `k` and class `c`, if some raw sensor of
that class at that station reports a non-empty (truthy) unit, then the
aggregated Parameter's unit is the unit of the first such sensor in
processing order, and no later sensor overwrites it: every station in
the output at those coordinates carries exactly that unit for class
`c` (and such a station exists). -/
theorem C8_unit_precedence (pairs : List (String × RawSensor)) (k : Coord × Coord)
    (c : String) (q0 : String × RawSensor)
    (hfind : ((pairs.filter (fun p => sensorKey p = some k)).filter
        (fun q => q.1 = c)).find? (fun q => truthyStr q.2.mu) = some q0) :
    (∃ st ∈ aggregatePairs pairs, st.lat = k.1 ∧ st.lng = k.2 ∧
       ∃ po ∈ st.parameters, po.cls = c ∧ po.unit = q0.2.mu) ∧
    (∀ st ∈ aggregatePairs pairs, st.lat = k.1 → st.lng = k.2 →
       ∀ po ∈ st.parameters, po.cls = c → po.unit = q0.2.mu) := by
  have hq0F : q0 ∈ (pairs.filter (fun p => sensorKey p = some k)) :=
    List.mem_of_mem_filter (List.mem_of_find?_eq_some hfind)
  obtain ⟨p1, F1, hF⟩ : ∃ p1 F1, pairs.filter (fun p => sensorKey p = some k) = p1 :: F1 := by
    cases hF : pairs.filter (fun p => sensorKey p = some k) with
    | nil => rw [hF] at hq0F; exact absurd hq0F (List.not_mem_nil q0)
    | cons a l => exact ⟨a, l, rfl⟩
  obtain ⟨e, he, hid, hname, hlat, hlng, hparams⟩ := entryFold_cons_spec k p1 F1
  have hgetk : getA k (buildIndex pairs) = some e := by
    rw [buildIndex_getA, hF]
    exact he
  obtain ⟨m, hm, hmu⟩ := metaFold_unit_first_truthy
    ((pairs.filter (fun p => sensorKey p = some k)).filter (fun q => q.1 = c))
    none q0 (.inl rfl) hfind
  have hgetc : getA c e.parameters = some m := by
    rw [hparams, ← hF, paramFold_getA]
    exact hm
  have hpoK : (c, m) ∈ e.parameters := getA_mem hgetc
  constructor
  · refine ⟨finalizeEntry e, (mem_aggregatePairs pairs _).mpr ⟨(k, e), getA_mem hgetk, rfl⟩,
      ?_, ?_, ?_⟩
    · simp [finalizeEntry, hlat]
    · simp [finalizeEntry, hlng]
    · refine ⟨⟨c, m.unit, List.insertionSort strLeP m.sensor_ids⟩, ?_, rfl, by rw [hmu]⟩
      simp only [finalizeEntry]
      exact List.mem_map_of_mem _ ((List.perm_insertionSort paramItemLe _).mem_iff.mpr hpoK)
  · intro st hst hstlat hstlng po hpo hpocls
    obtain ⟨⟨k2, e2⟩, hkv, hfe⟩ := (mem_aggregatePairs pairs _).mp hst
    have hget2 : getA k2 (buildIndex pairs) = some e2 :=
      mem_getA (buildIndex_keys_nodup pairs) hkv
    obtain ⟨p2, F2, hF2⟩ : ∃ p2 F2,
        pairs.filter (fun p => sensorKey p = some k2) = p2 :: F2 := by
      cases hF2 : pairs.filter (fun p => sensorKey p = some k2) with
      | nil =>
        rw [buildIndex_getA, hF2] at hget2
        exact absurd hget2 (by simp [entryFold])
      | cons a l => exact ⟨a, l, rfl⟩
    obtain ⟨e2b, he2b, hid2, hname2, hlat2, hlng2, hparams2⟩ := entryFold_cons_spec k2 p2 F2
    have he2eq : e2b = e2 := by
      rw [buildIndex_getA, hF2, he2b] at hget2
      injection hget2
    subst he2eq
    have hk2 : k2 = k := by
      have h1 : e2b.lat = k.1 := by rw [← hfe] at hstlat; simpa [finalizeEntry] using hstlat
      have h2 : e2b.lng = k.2 := by rw [← hfe] at hstlng; simpa [finalizeEntry] using hstlng
      rw [hlat2] at h1
      rw [hlng2] at h2
      have hpair : (k2.1, k2.2) = (k.1, k.2) := by rw [h1, h2]
      simpa using hpair
    subst hk2
    have he2e : e2b = e := by
      rw [hgetk] at hget2
      injection hget2 with h
      exact h.symm
    subst he2e
    rw [← hfe] at hpo
    rw [finalizeEntry] at hpo
    obtain ⟨⟨c2, m2⟩, hm2mem, hm2eq⟩ := List.mem_map.mp hpo
    have hc2 : c2 = c := by rw [← hm2eq] at hpocls; exact hpocls
    subst hc2
    have hm2mem2 : (c2, m2) ∈ e2b.parameters :=
      (List.perm_insertionSort paramItemLe _).mem_iff.mp hm2mem
    have hpnd : ((e2b.parameters.map Prod.fst).Nodup) := by
      rw [hparams2]
      exact paramFold_keys_nodup _ [] (by simp)
    have : getA c2 e2b.parameters = some m2 := mem_getA hpnd hm2mem2
    rw [hgetc] at this
    injection this with this
    subst this
    rw [← hm2eq]
    simpa using hmu

/-- Witness for C8 at the specification's example: raw sensors of
class `T` at one station with units `null`, `"°C"`, `"F"` in that
order; the aggregated unit is `"°C"`. -/
theorem C8_unit_precedence_witness :
    ((([(("T", ⟨some "A", some 1, some 2, none, some "1"⟩) : String × RawSensor),
        ("T", ⟨some "A", some 1, some 2, some "°C", some "2"⟩),
        ("T", ⟨some "A", some 1, some 2, some "F", some "3"⟩)].filter
          (fun p => sensorKey p = some ((1 : Coord), (2 : Coord)))).filter
        (fun q => q.1 = "T")).find? (fun q => truthyStr q.2.mu) =
      some ("T", ⟨some "A", some 1, some 2, some "°C", some "2"⟩)) ∧
    ((∃ st ∈ aggregatePairs
        [(("T", ⟨some "A", some 1, some 2, none, some "1"⟩) : String × RawSensor),
         ("T", ⟨some "A", some 1, some 2, some "°C", some "2"⟩),
         ("T", ⟨some "A", some 1, some 2, some "F", some "3"⟩)],
        st.lat = (1 : Coord) ∧ st.lng = (2 : Coord) ∧
        ∃ po ∈ st.parameters, po.cls = "T" ∧ po.unit = some "°C") ∧
     (∀ st ∈ aggregatePairs
        [(("T", ⟨some "A", some 1, some 2, none, some "1"⟩) : String × RawSensor),
         ("T", ⟨some "A", some 1, some 2, some "°C", some "2"⟩),
         ("T", ⟨some "A", some 1, some 2, some "F", some "3"⟩)],
        st.lat = (1 : Coord) → st.lng = (2 : Coord) →
        ∀ po ∈ st.parameters, po.cls = "T" → po.unit = some "°C")) :=
  ⟨by decide, C8_unit_precedence _ ((1 : Coord), (2 : Coord)) "T"
    ("T", ⟨some "A", some 1, some 2, some "°C", some "2"⟩) (by decide)⟩

theorem strLt_iff (s t : String) : strLt s t = true ↔ strLe s t = true ∧ s ≠ t := by
  rw [strLt]
  simp

theorem strLt_of_le_of_ne {s t : String} (h1 : strLe s t = true) (h2 : s ≠ t) :
    strLt s t = true := (strLt_iff s t).mpr ⟨h1, h2⟩

theorem strLt_asymm {s t : String} (h1 : strLt s t = true) (h2 : strLt t s = true) : False := by
  rw [strLt_iff] at h1 h2
  exact h1.2 (strLe_antisymm h1.1 h2.1)

theorem strLt_trans {s t u : String} (h1 : strLt s t = true) (h2 : strLt t u = true) :
    strLt s u = true := by
  rw [strLt_iff] at *
  refine ⟨strLe_trans h1.1 h2.1, ?_⟩
  rintro rfl
  exact h2.2 (strLe_antisymm h2.1 h1.1)

theorem strLt_total_of_ne {s t : String} (h : s ≠ t) :
    strLt s t = true ∨ strLt t s = true := by
  rcases strLe_total s t with hle | hle
  · exact .inl (strLt_of_le_of_ne hle h)
  · exact .inr (strLt_of_le_of_ne hle (Ne.symm h))

theorem strLt_not_eq {s t : String} (h : strLt s t = true) : s ≠ t := ((strLt_iff s t).mp h).2

theorem stationLe_iff (a b : StationOut) : stationLe a b ↔
    (strLt a.station_name b.station_name = true ∨
      (a.station_name = b.station_name ∧
        (a.lat < b.lat ∨ (a.lat = b.lat ∧ a.lng ≤ b.lng)))) := by
  rw [stationLe]
  simp

theorem stationLe_total (a b : StationOut) : stationLe a b ∨ stationLe b a := by
  rw [stationLe_iff, stationLe_iff]
  by_cases hn : a.station_name = b.station_name
  · by_cases hl : a.lat = b.lat
    · rcases Int.le_total a.lng b.lng with h | h
      · exact .inl (.inr ⟨hn, .inr ⟨hl, h⟩⟩)
      · exact .inr (.inr ⟨hn.symm, .inr ⟨hl.symm, h⟩⟩)
    · rcases lt_or_gt_of_ne hl with h | h
      · exact .inl (.inr ⟨hn, .inl h⟩)
      · exact .inr (.inr ⟨hn.symm, .inl h⟩)
  · rcases strLt_total_of_ne hn with h | h
    · exact .inl (.inl h)
    · exact .inr (.inl h)

theorem stationLe_trans {a b c : StationOut} (h1 : stationLe a b) (h2 : stationLe b c) :
    stationLe a c := by
  rw [stationLe_iff] at *
  rcases h1 with h1 | ⟨hn1, h1⟩
  · rcases h2 with h2 | ⟨hn2, _⟩
    · exact .inl (strLt_trans h1 h2)
    · exact .inl (hn2 ▸ h1)
  · rcases h2 with h2 | ⟨hn2, h2⟩
    · exact .inl (hn1 ▸ h2)
    · refine .inr ⟨hn1.trans hn2, ?_⟩
      rcases h1 with h1 | ⟨hl1, h1⟩
      · rcases h2 with h2 | ⟨hl2, _⟩
        · exact .inl (h1.trans h2)
        · exact .inl (hl2 ▸ h1)
      · rcases h2 with h2 | ⟨hl2, h2⟩
        · exact .inl (hl1 ▸ h2)
        · exact .inr ⟨hl1.trans hl2, h1.trans h2⟩

theorem stationLe_antisymm_key {a b : StationOut} (h1 : stationLe a b) (h2 : stationLe b a) :
    stationSortKey a = stationSortKey b := by
  rw [stationLe_iff] at h1 h2
  rcases h1 with h1 | ⟨hn1, h1⟩
  · rcases h2 with h2 | ⟨hn2, _⟩
    · exact absurd h2 (fun h => strLt_asymm h1 h)
    · exact absurd hn2.symm (strLt_not_eq h1)
  · rcases h2 with h2 | ⟨hn2, h2⟩
    · exact absurd hn1.symm (strLt_not_eq h2)
    · have hlat : a.lat = b.lat := by
        rcases h1 with h1 | ⟨hl1, _⟩
        · rcases h2 with h2 | ⟨hl2, _⟩
          · exact absurd (h1.trans h2) (lt_irrefl _)
          · rw [hl2] at h1
            exact absurd h1 (lt_irrefl _)
        · exact hl1
      have hlng : a.lng = b.lng := by
        rcases h1 with h1 | ⟨hl1, hg1⟩
        · rw [hlat] at h1
          exact absurd h1 (lt_irrefl _)
        · rcases h2 with h2 | ⟨hl2, hg2⟩
          · rw [hlat] at h2
            exact absurd h2 (lt_irrefl _)
          · exact le_antisymm hg1 hg2
      rw [stationSortKey, stationSortKey, hn1, hlat, hlng]

theorem getA_mapVal {κ β γ : Type} [DecidableEq κ] (g : β → γ) (k : κ) (l : List (κ × β)) :
    getA k (l.map (fun kv => (kv.1, g kv.2))) = (getA k l).map g := by
  induction l with
  | nil => rfl
  | cons p rest ih =>
    obtain ⟨k2, v⟩ := p
    by_cases h : k2 = k <;> simp [getA, h, ih]

theorem keys_mapVal {κ β γ : Type} [DecidableEq κ] (g : β → γ) (l : List (κ × β)) :
    (l.map (fun kv => (kv.1, g kv.2))).map Prod.fst = l.map Prod.fst := by
  rw [List.map_map]
  rfl

theorem metaFold_isSome : ∀ (G : List (String × RawSensor)) (m0 : ParamMeta),
    ∃ m1, G.foldl metaFoldStep (some m0) = some m1 := by
  intro G
  induction G with
  | nil => exact fun m0 => ⟨m0, rfl⟩
  | cons q rest ih =>
    intro m0
    rw [List.foldl_cons]
    exact ih (metaStep q.2 m0)

theorem metaFold_unit_const :
    ∀ (G : List (String × RawSensor)) (m0 : ParamMeta) (mu0 : Option String),
    (∀ p ∈ G, p.2.mu = mu0) → m0.unit = mu0 →
    ∀ m1, G.foldl metaFoldStep (some m0) = some m1 → m1.unit = mu0 := by
  intro G
  induction G with
  | nil =>
    intro m0 mu0 _ hu m1 h
    rw [List.foldl_nil] at h
    injection h with h
    rw [← h]
    exact hu
  | cons q rest ih =>
    intro m0 mu0 hall hu m1 h
    rw [List.foldl_cons] at h
    refine ih (metaStep q.2 m0) mu0 (fun p hp => hall p (List.mem_cons_of_mem _ hp)) ?_ m1 h
    rw [metaStep_unit, hall q (List.mem_cons_self _ _), hu]
    cases truthyStr mu0 <;> simp

theorem metaFold_none_spec (q : String × RawSensor) (G1 : List (String × RawSensor)) :
    ∃ m, ((q :: G1).foldl metaFoldStep none = some m) ∧ m.sensor_ids.Nodup ∧
      (∀ x, x ∈ m.sensor_ids ↔ ∃ p ∈ q :: G1, p.2.id = some x ∧ x.data.isEmpty = false) ∧
      (∀ mu0, (∀ p ∈ q :: G1, p.2.mu = mu0) → m.unit = mu0) := by
  set base := metaStep q.2 (⟨q.2.mu, []⟩ : ParamMeta) with hbase
  have hbase_ids : base.sensor_ids.Nodup ∧
      (∀ x, x ∈ base.sensor_ids ↔ q.2.id = some x ∧ x.data.isEmpty = false) := by
    cases hid : q.2.id with
    | none =>
      have h := (metaStep_ids q.2 ⟨q.2.mu, []⟩ "").1 (.inl hid)
      rw [hbase, h]
      exact ⟨List.nodup_nil, fun x => by simp [hid]⟩
    | some sid =>
      cases hemp : sid.data.isEmpty with
      | true =>
        have h := (metaStep_ids q.2 ⟨q.2.mu, []⟩ sid).1 (.inr ⟨hid, hemp⟩)
        rw [hbase, h]
        refine ⟨List.nodup_nil, fun x => ?_⟩
        simp only [List.not_mem_nil, false_iff, hid]
        rintro ⟨h1, h2⟩
        injection h1 with h1
        subst h1
        rw [hemp] at h2
        exact absurd h2 (by simp)
      | false =>
        have h := (metaStep_ids q.2 ⟨q.2.mu, []⟩ sid).2 hid hemp
        rw [hbase, h]
        constructor
        · exact addToSet_nodup sid [] List.nodup_nil
        · intro x
          rw [mem_addToSet]
          simp only [List.not_mem_nil, false_or, hid]
          constructor
          · rintro rfl
            exact ⟨rfl, hemp⟩
          · rintro ⟨h1, _⟩
            injection h1 with h1
            exact h1.symm
  obtain ⟨m, hm, hmnd, hmmem⟩ := metaFold_ids G1 base hbase_ids.1
  refine ⟨m, ?_, hmnd, ?_, ?_⟩
  · rw [List.foldl_cons]
    exact hm
  · intro x
    rw [hmmem x, hbase_ids.2 x]
    constructor
    · rintro (⟨h1, h2⟩ | ⟨p, hp, h1, h2⟩)
      · exact ⟨q, List.mem_cons_self _ _, h1, h2⟩
      · exact ⟨p, List.mem_cons_of_mem _ hp, h1, h2⟩
    · rintro ⟨p, hp, h1, h2⟩
      rcases List.mem_cons.mp hp with rfl | hp2
      · exact .inl ⟨h1, h2⟩
      · exact .inr ⟨p, hp2, h1, h2⟩
  · intro mu0 hall
    refine metaFold_unit_const G1 base mu0 (fun p hp => hall p (List.mem_cons_of_mem _ hp)) ?_ m hm
    rw [hbase, metaStep_unit, hall q (List.mem_cons_self _ _)]
    cases truthyStr mu0 <;> simp

theorem sortIds_eq (ids ids2 : List String) (hnd : ids.Nodup) (hnd2 : ids2.Nodup)
    (hmem : ∀ x, x ∈ ids ↔ x ∈ ids2) :
    List.insertionSort strLeP ids = List.insertionSort strLeP ids2 := by
  have hperm : ids.Perm ids2 := (List.perm_ext_iff_of_nodup hnd hnd2).mpr hmem
  haveI : IsTotal String strLeP := ⟨strLe_total⟩
  haveI : IsTrans String strLeP := ⟨fun a b c h1 h2 => strLe_trans h1 h2⟩
  apply eq_of_perm_sorted_keys (fun s => s) strLeP
    (fun a b h1 h2 => strLe_antisymm h1 h2)
  · exact ((List.perm_insertionSort strLeP ids).trans hperm).trans
      (List.perm_insertionSort strLeP ids2).symm
  · exact List.sorted_insertionSort strLeP ids
  · exact List.sorted_insertionSort strLeP ids2
  · have : (List.insertionSort strLeP ids).Nodup :=
      ((List.perm_insertionSort strLeP ids).nodup_iff).mpr hnd
    simpa using this

theorem finalize_params_eq (prm prm2 : List (String × ParamMeta))
    (hnd : (prm.map Prod.fst).Nodup) (hnd2 : (prm2.map Prod.fst).Nodup)
    (hget : ∀ c, (getA c prm).map finalizeMetaPair = (getA c prm2).map finalizeMetaPair) :
    (List.insertionSort paramItemLe prm).map
        (fun kv => (⟨kv.1, kv.2.unit, List.insertionSort strLeP kv.2.sensor_ids⟩ : ParamOut)) =
      (List.insertionSort paramItemLe prm2).map
        (fun kv => ⟨kv.1, kv.2.unit, List.insertionSort strLeP kv.2.sensor_ids⟩) := by
  have hmapsort : ∀ l : List (String × ParamMeta),
      (List.insertionSort paramItemLe l).map
          (fun kv => (⟨kv.1, kv.2.unit, List.insertionSort strLeP kv.2.sensor_ids⟩ : ParamOut)) =
        List.insertionSort paramOutLe
          (l.map (fun kv => ⟨kv.1, kv.2.unit, List.insertionSort strLeP kv.2.sensor_ids⟩)) := by
    intro l
    exact List.map_insertionSort paramItemLe paramOutLe _ l (fun a _ b _ => Iff.rfl)
  rw [hmapsort, hmapsort]
  set pi := prm.map (fun kv => (kv.1, finalizeMetaPair kv.2)) with hpi
  set pi2 := prm2.map (fun kv => (kv.1, finalizeMetaPair kv.2)) with hpi2
  have hpind : pi.Nodup := List.Nodup.of_map Prod.fst (by rw [hpi, keys_mapVal]; exact hnd)
  have hpind2 : pi2.Nodup := List.Nodup.of_map Prod.fst (by rw [hpi2, keys_mapVal]; exact hnd2)
  have hpiperm : pi.Perm pi2 := by
    rw [List.perm_ext_iff_of_nodup hpind hpind2]
    intro kv
    obtain ⟨c, v⟩ := kv
    constructor
    · intro hmem
      have : getA c pi = some v :=
        mem_getA (by rw [hpi, keys_mapVal]; exact hnd) hmem
      rw [hpi, getA_mapVal] at this
      rw [hget c] at this
      rw [hpi2] at *
      exact getA_mem (by rw [getA_mapVal]; exact this)
    · intro hmem
      have : getA c pi2 = some v :=
        mem_getA (by rw [hpi2, keys_mapVal]; exact hnd2) hmem
      rw [hpi2, getA_mapVal] at this
      rw [← hget c] at this
      rw [hpi] at *
      exact getA_mem (by rw [getA_mapVal]; exact this)
  have hconv : ∀ l : List (String × ParamMeta),
      l.map (fun kv => (⟨kv.1, kv.2.unit, List.insertionSort strLeP kv.2.sensor_ids⟩ : ParamOut)) =
        (l.map (fun kv => (kv.1, finalizeMetaPair kv.2))).map
          (fun kv => ⟨kv.1, kv.2.1, kv.2.2⟩) := by
    intro l
    rw [List.map_map]
    rfl
  rw [hconv, hconv, ← hpi, ← hpi2]
  have hmperm : (pi.map (fun kv => (⟨kv.1, kv.2.1, kv.2.2⟩ : ParamOut))).Perm
      (pi2.map (fun kv => ⟨kv.1, kv.2.1, kv.2.2⟩)) := hpiperm.map _
  haveI : IsTotal ParamOut paramOutLe := ⟨fun a b => strLe_total a.cls b.cls⟩
  haveI : IsTrans ParamOut paramOutLe := ⟨fun a b c h1 h2 => strLe_trans h1 h2⟩
  apply eq_of_perm_sorted_keys (fun po : ParamOut => po.cls) paramOutLe
    (fun a b h1 h2 => strLe_antisymm h1 h2)
  · exact ((List.perm_insertionSort paramOutLe _).trans hmperm).trans
      (List.perm_insertionSort paramOutLe _).symm
  · exact List.sorted_insertionSort paramOutLe _
  · exact List.sorted_insertionSort paramOutLe _
  · have h1 : ((pi.map (fun kv => (⟨kv.1, kv.2.1, kv.2.2⟩ : ParamOut))).map
        (fun po : ParamOut => po.cls)).Nodup := by
      rw [List.map_map]
      have : ((fun po : ParamOut => po.cls) ∘ (fun kv : String × (Option String × List String) =>
          (⟨kv.1, kv.2.1, kv.2.2⟩ : ParamOut))) = Prod.fst := rfl
      rw [this, hpi, keys_mapVal]
      exact hnd
    have hp2 : ((List.insertionSort paramOutLe
        (pi.map (fun kv => (⟨kv.1, kv.2.1, kv.2.2⟩ : ParamOut)))).map
        (fun po : ParamOut => po.cls)).Nodup := by
      refine (List.Perm.nodup_iff ?_).mpr h1
      exact (List.perm_insertionSort paramOutLe _).map _
    exact hp2

theorem canonical_entry_eq (k : Coord × Coord) (F F2 : List (String × RawSensor))
    (hperm : F.Perm F2)
    (hname : ∀ p q, p ∈ F → q ∈ F → cleanName p.2.name = cleanName q.2.name)
    (hmu : ∀ p q, p ∈ F → q ∈ F → p.1 = q.1 → p.2.mu = q.2.mu) :
    (entryFold k F).map finalizeEntry = (entryFold k F2).map finalizeEntry := by
  cases F with
  | nil =>
    rw [← hperm.nil_eq]
  | cons p1 F1 =>
    cases F2 with
    | nil =>
      have := hperm.length_eq
      simp at this
    | cons p2 F21 =>
      obtain ⟨e, he, hid, hname1, hlat, hlng, hparams⟩ := entryFold_cons_spec k p1 F1
      obtain ⟨e2, he2, hid2, hname2, hlat2, hlng2, hparams2⟩ := entryFold_cons_spec k p2 F21
      rw [he, he2, Option.map_some', Option.map_some']
      congr 1
      have hgetc : ∀ c, (getA c e.parameters).map finalizeMetaPair =
          (getA c e2.parameters).map finalizeMetaPair := by
        intro c
        rw [hparams, hparams2, paramFold_getA, paramFold_getA]
        have hinit : getA c ([] : List (String × ParamMeta)) = none := rfl
        rw [hinit]
        have hGperm : ((p1 :: F1).filter (fun q => q.1 = c)).Perm
            ((p2 :: F21).filter (fun q => q.1 = c)) := hperm.filter _
        cases hG : (p1 :: F1).filter (fun q => q.1 = c) with
        | nil =>
          rw [hG] at hGperm
          rw [← hGperm.nil_eq]
        | cons q G1 =>
          rw [hG] at hGperm
          cases hG2 : (p2 :: F21).filter (fun q => q.1 = c) with
          | nil =>
            rw [hG2] at hGperm
            have := hGperm.length_eq
            simp at this
          | cons q2 G21 =>
            rw [hG2] at hGperm
            obtain ⟨m, hm, hmnd, hmmem, hmu1⟩ := metaFold_none_spec q G1
            obtain ⟨m2, hm2, hmnd2, hmmem2, hmu2⟩ := metaFold_none_spec q2 G21
            rw [hm, hm2, Option.map_some', Option.map_some']
            congr 1
            have hmemF : ∀ p ∈ q :: G1, p ∈ (p1 :: F1) ∧ p.1 = c := by
              intro p hp
              rw [← hG] at hp
              have := List.mem_filter.mp hp
              exact ⟨this.1, by simpa using this.2⟩
            have hmemF2 : ∀ p ∈ q2 :: G21, p ∈ (p1 :: F1) ∧ p.1 = c := by
              intro p hp
              rw [← hG2] at hp
              have := List.mem_filter.mp hp
              exact ⟨hperm.mem_iff.mpr this.1, by simpa using this.2⟩
            have hq_mem : q ∈ (p1 :: F1) ∧ q.1 = c := hmemF q (List.mem_cons_self _ _)
            have hunit : m.unit = q.2.mu := hmu1 q.2.mu (fun p hp =>
              hmu p q (hmemF p hp).1 hq_mem.1 ((hmemF p hp).2.trans hq_mem.2.symm))
            have hunit2 : m2.unit = q.2.mu := hmu2 q.2.mu (fun p hp =>
              hmu p q (hmemF2 p hp).1 hq_mem.1 ((hmemF2 p hp).2.trans hq_mem.2.symm))
            have hids : List.insertionSort strLeP m.sensor_ids =
                List.insertionSort strLeP m2.sensor_ids := by
              refine sortIds_eq _ _ hmnd hmnd2 ?_
              intro x
              rw [hmmem x, hmmem2 x]
              constructor
              · rintro ⟨p, hp, h1, h2⟩
                exact ⟨p, hGperm.mem_iff.mp hp, h1, h2⟩
              · rintro ⟨p, hp, h1, h2⟩
                exact ⟨p, hGperm.mem_iff.mpr hp, h1, h2⟩
            rw [finalizeMetaPair, finalizeMetaPair, hunit, hunit2, hids]
      have hp2F : p2 ∈ (p1 :: F1) := hperm.mem_iff.mpr (List.mem_cons_self _ _)
      rw [finalizeEntry, finalizeEntry]
      have hnm : e.station_name = e2.station_name := by
        rw [hname1, hname2]
        exact hname p1 p2 (List.mem_cons_self _ _) hp2F
      have hpar := finalize_params_eq e.parameters e2.parameters
        (by rw [hparams]; exact paramFold_keys_nodup _ [] (by simp))
        (by rw [hparams2]; exact paramFold_keys_nodup _ [] (by simp))
        hgetc
      rw [hid, hid2, hnm, hlat, hlat2, hlng, hlng2, hpar]

/-! ## Claim C4: permutation invariance of the station aggregator -/

/-- C4 (amended): under the agreement hypotheses — raw sensors sharing
a station key report one common (cleaned) name, and raw sensors
sharing a station key and class report one common unit — the
aggregator output is invariant under any permutation of the raw
`(class, sensor)` pair list; moreover the output is sorted by
`(station_name, lat, lng)` and those sort keys are pairwise distinct,
so the output order is fully determined by the key. -/
theorem C4_perm_invariance (pairs pairs2 : List (String × RawSensor))
    (hperm : pairs.Perm pairs2)
    (H1 : ∀ p ∈ pairs, ∀ q ∈ pairs, sensorKey p = sensorKey q → sensorKey p ≠ none →
      cleanName p.2.name = cleanName q.2.name)
    (H2 : ∀ p ∈ pairs, ∀ q ∈ pairs, sensorKey p = sensorKey q → sensorKey p ≠ none →
      p.1 = q.1 → p.2.mu = q.2.mu) :
    aggregatePairs pairs = aggregatePairs pairs2 ∧
    List.Sorted stationLe (aggregatePairs pairs) ∧
    ((aggregatePairs pairs).map stationSortKey).Nodup := by
  haveI : IsTotal StationOut stationLe := ⟨stationLe_total⟩
  haveI : IsTrans StationOut stationLe := ⟨fun a b c h1 h2 => stationLe_trans h1 h2⟩
  have hkey_eq : ∀ k, (getA k (buildIndex pairs)).map finalizeEntry =
      (getA k (buildIndex pairs2)).map finalizeEntry := by
    intro k
    rw [buildIndex_getA, buildIndex_getA]
    apply canonical_entry_eq k _ _ (hperm.filter _)
    · intro p q hp hq
      have hp2 := List.mem_filter.mp hp
      have hq2 := List.mem_filter.mp hq
      have hpk : sensorKey p = some k := by simpa using hp2.2
      have hqk : sensorKey q = some k := by simpa using hq2.2
      exact H1 p hp2.1 q hq2.1 (hpk.trans hqk.symm) (by simp [hpk])
    · intro p q hp hq
      have hp2 := List.mem_filter.mp hp
      have hq2 := List.mem_filter.mp hq
      have hpk : sensorKey p = some k := by simpa using hp2.2
      have hqk : sensorKey q = some k := by simpa using hq2.2
      exact H2 p hp2.1 q hq2.1 (hpk.trans hqk.symm) (by simp [hpk])
  have hcnd : ∀ ps : List (String × RawSensor),
      (((buildIndex ps).map (fun kv => (kv.1, finalizeEntry kv.2))).map Prod.fst).Nodup := by
    intro ps
    rw [keys_mapVal]
    exact buildIndex_keys_nodup ps
  have hciperm : ((buildIndex pairs).map (fun kv => (kv.1, finalizeEntry kv.2))).Perm
      ((buildIndex pairs2).map (fun kv => (kv.1, finalizeEntry kv.2))) := by
    rw [List.perm_ext_iff_of_nodup (List.Nodup.of_map _ (hcnd pairs))
      (List.Nodup.of_map _ (hcnd pairs2))]
    rintro ⟨k, so⟩
    constructor
    · intro hmem
      have h1 : getA k ((buildIndex pairs).map (fun kv => (kv.1, finalizeEntry kv.2))) =
          some so := mem_getA (hcnd pairs) hmem
      rw [getA_mapVal] at h1
      rw [hkey_eq k] at h1
      exact getA_mem (by rw [getA_mapVal]; exact h1)
    · intro hmem
      have h1 : getA k ((buildIndex pairs2).map (fun kv => (kv.1, finalizeEntry kv.2))) =
          some so := mem_getA (hcnd pairs2) hmem
      rw [getA_mapVal] at h1
      rw [← hkey_eq k] at h1
      exact getA_mem (by rw [getA_mapVal]; exact h1)
  have hV : ∀ ps : List (String × RawSensor),
      (buildIndex ps).map (fun kv => finalizeEntry kv.2) =
        ((buildIndex ps).map (fun kv => (kv.1, finalizeEntry kv.2))).map Prod.snd := by
    intro ps
    rw [List.map_map]
    rfl
  have hVperm : ((buildIndex pairs).map (fun kv => finalizeEntry kv.2)).Perm
      ((buildIndex pairs2).map (fun kv => finalizeEntry kv.2)) := by
    rw [hV, hV]
    exact hciperm.map _
  have hcoords : ∀ ps : List (String × RawSensor),
      ((buildIndex ps).map (fun kv => finalizeEntry kv.2)).map (fun s => (s.lat, s.lng)) =
        (buildIndex ps).map Prod.fst := by
    intro ps
    rw [List.map_map]
    apply List.map_congr_left
    rintro ⟨k, e⟩ hkv
    have hget : getA k (buildIndex ps) = some e :=
      mem_getA (buildIndex_keys_nodup ps) hkv
    rw [buildIndex_getA] at hget
    rcases hF : ps.filter (fun p => sensorKey p = some k) with _ | ⟨p1, F1⟩
    · rw [hF] at hget
      exact absurd hget (by simp [entryFold])
    · rw [hF] at hget
      obtain ⟨e1, he1, _, _, hlat1, hlng1, _⟩ := entryFold_cons_spec k p1 F1
      rw [he1] at hget
      injection hget with hget
      subst hget
      simp [finalizeEntry, hlat1, hlng1]
  have hkeysnodup : ∀ ps : List (String × RawSensor),
      (((buildIndex ps).map (fun kv => finalizeEntry kv.2)).map stationSortKey).Nodup := by
    intro ps
    apply List.Nodup.of_map (Prod.snd : String × Coord × Coord → Coord × Coord)
    have : (((buildIndex ps).map (fun kv => finalizeEntry kv.2)).map stationSortKey).map
        Prod.snd = ((buildIndex ps).map (fun kv => finalizeEntry kv.2)).map
          (fun s => (s.lat, s.lng)) := by
      rw [List.map_map]
      rfl
    rw [this, hcoords]
    exact buildIndex_keys_nodup ps
  have heq : aggregatePairs pairs = aggregatePairs pairs2 := by
    rw [aggregatePairs, aggregatePairs]
    apply eq_of_perm_sorted_keys stationSortKey stationLe
      (fun a b h1 h2 => stationLe_antisymm_key h1 h2)
    · exact ((List.perm_insertionSort stationLe _).trans hVperm).trans
        (List.perm_insertionSort stationLe _).symm
    · exact List.sorted_insertionSort stationLe _
    · exact List.sorted_insertionSort stationLe _
    · refine (List.Perm.nodup_iff ?_).mpr (hkeysnodup pairs)
      exact (List.perm_insertionSort stationLe _).map _
  refine ⟨heq, List.sorted_insertionSort stationLe _, ?_⟩
  rw [aggregatePairs]
  refine (List.Perm.nodup_iff ?_).mpr (hkeysnodup pairs)
  exact (List.perm_insertionSort stationLe _).map _

/-- C4 counterexample: as literally stated the claim is false.  Two
raw sensors at identical rounded coordinates reporting different
station names (`"A"`/`"B"`), or agreeing names but different non-empty
units (`"C"`/`"F"`), give different directories under the two orders:
the first occurrence wins for `station_name` and for the unit. -/
theorem C4_counterexample :
    (([("T", cexSensorA), ("T", cexSensorB)] : List (String × RawSensor)).Perm
      [("T", cexSensorB), ("T", cexSensorA)]) ∧
    aggregatePairs [("T", cexSensorA), ("T", cexSensorB)] ≠
      aggregatePairs [("T", cexSensorB), ("T", cexSensorA)] ∧
    (([("T", cexSensorU1), ("T", cexSensorU2)] : List (String × RawSensor)).Perm
      [("T", cexSensorU2), ("T", cexSensorU1)]) ∧
    aggregatePairs [("T", cexSensorU1), ("T", cexSensorU2)] ≠
      aggregatePairs [("T", cexSensorU2), ("T", cexSensorU1)] :=
  ⟨List.Perm.swap _ _ _, by decide, List.Perm.swap _ _ _, by decide⟩

/-- Witness for C4 on a two-sensor station whose sensors agree on name
and unit, against the swapped order. -/
theorem C4_perm_invariance_witness :
    (([(("T", ⟨some "A", some 1, some 2, some "C", some "1"⟩) : String × RawSensor),
       ("T", ⟨some "A", some 1, some 2, some "C", some "2"⟩)]).Perm
      [("T", ⟨some "A", some 1, some 2, some "C", some "2"⟩),
       ("T", ⟨some "A", some 1, some 2, some "C", some "1"⟩)]) ∧
    (∀ p ∈ [(("T", ⟨some "A", some 1, some 2, some "C", some "1"⟩) : String × RawSensor),
        ("T", ⟨some "A", some 1, some 2, some "C", some "2"⟩)],
      ∀ q ∈ [(("T", ⟨some "A", some 1, some 2, some "C", some "1"⟩) : String × RawSensor),
        ("T", ⟨some "A", some 1, some 2, some "C", some "2"⟩)],
      sensorKey p = sensorKey q → sensorKey p ≠ none →
      cleanName p.2.name = cleanName q.2.name) ∧
    (∀ p ∈ [(("T", ⟨some "A", some 1, some 2, some "C", some "1"⟩) : String × RawSensor),
        ("T", ⟨some "A", some 1, some 2, some "C", some "2"⟩)],
      ∀ q ∈ [(("T", ⟨some "A", some 1, some 2, some "C", some "1"⟩) : String × RawSensor),
        ("T", ⟨some "A", some 1, some 2, some "C", some "2"⟩)],
      sensorKey p = sensorKey q → sensorKey p ≠ none → p.1 = q.1 → p.2.mu = q.2.mu) ∧
    (aggregatePairs [(("T", ⟨some "A", some 1, some 2, some "C", some "1"⟩) : String × RawSensor),
        ("T", ⟨some "A", some 1, some 2, some "C", some "2"⟩)] =
      aggregatePairs [("T", ⟨some "A", some 1, some 2, some "C", some "2"⟩),
        ("T", ⟨some "A", some 1, some 2, some "C", some "1"⟩)] ∧
     List.Sorted stationLe (aggregatePairs
        [(("T", ⟨some "A", some 1, some 2, some "C", some "1"⟩) : String × RawSensor),
         ("T", ⟨some "A", some 1, some 2, some "C", some "2"⟩)]) ∧
     ((aggregatePairs [(("T", ⟨some "A", some 1, some 2, some "C", some "1"⟩) : String × RawSensor),
        ("T", ⟨some "A", some 1, some 2, some "C", some "2"⟩)]).map stationSortKey).Nodup) :=
  ⟨List.Perm.swap _ _ _, by decide, by decide,
    C4_perm_invariance _ _ (List.Perm.swap _ _ _) (by decide) (by decide)⟩


theorem get_sensor_classes_fresh (cid : String) (up : Upstream) (st : ClientState)
    (cs : List String) (hok : up.classes_resp = .ok cs) (hne : cs ≠ [])
    (hfresh : getA (cid ++ "-cima-sensor-classes") st.cache = none) :
    get_sensor_classes cid true up st =
      (.ok cs, ⟨setA (cid ++ "-cima-sensor-classes") (.classesV cs) st.cache,
        st.upstream_calls + 1⟩) ∧
    get_sensor_classes cid true up
        ⟨setA (cid ++ "-cima-sensor-classes") (.classesV cs) st.cache,
          st.upstream_calls + 1⟩ =
      (.ok cs, ⟨setA (cid ++ "-cima-sensor-classes") (.classesV cs) st.cache,
        st.upstream_calls + 1⟩) := by
  constructor
  · simp only [get_sensor_classes, hfresh, hok]
    simp
  · simp only [get_sensor_classes, getA_setA_self]
    rw [if_neg (show ¬(cs.isEmpty = true) by simp [hne])]
    simp

theorem get_sensors_list_fresh (cid : String) (up : Upstream) (st : ClientState)
    (c : String) (ss : List RawSensor) (hok : up.sensors_resp c = .ok ss)
    (hfresh : getA (cid ++ "-cima-sensor-list-class-" ++ c) st.cache = none) :
    get_sensors_list_for_class cid true up c st =
      (.ok ss, ⟨setA (cid ++ "-cima-sensor-list-class-" ++ c) (.sensorsV ss) st.cache,
        st.upstream_calls + 1⟩) ∧
    get_sensors_list_for_class cid true up c
        ⟨setA (cid ++ "-cima-sensor-list-class-" ++ c) (.sensorsV ss) st.cache,
          st.upstream_calls + 1⟩ =
      (.ok ss, ⟨setA (cid ++ "-cima-sensor-list-class-" ++ c) (.sensorsV ss) st.cache,
        st.upstream_calls + 1⟩) := by
  constructor
  · simp only [get_sensors_list_for_class, hfresh, hok]
    simp
  · simp only [get_sensors_list_for_class, getA_setA_self]
    simp

theorem get_sensor_classes_error_cache (cid : String) (uc : Bool) (up : Upstream)
    (st : ClientState) (e : Unit) (he : up.classes_resp = .error e) :
    (get_sensor_classes cid uc up st).2.cache = st.cache := by
  simp only [get_sensor_classes, he]
  split
  · rfl
  · rfl

theorem get_sensors_list_error_cache (cid : String) (uc : Bool) (up : Upstream)
    (c : String) (st : ClientState) (e : Unit) (he : up.sensors_resp c = .error e) :
    (get_sensors_list_for_class cid uc up c st).2.cache = st.cache := by
  simp only [get_sensors_list_for_class, he]
  split
  · rfl
  · rfl

theorem get_sensor_classes_calls (cid : String) (uc : Bool) (up : Upstream)
    (st : ClientState) :
    st.upstream_calls ≤ (get_sensor_classes cid uc up st).2.upstream_calls := by
  simp only [get_sensor_classes]
  split
  · exact le_refl _
  · split
    · simp
    · split <;> simp

theorem get_sensors_list_calls (cid : String) (uc : Bool) (up : Upstream) (c : String)
    (st : ClientState) :
    st.upstream_calls ≤ (get_sensors_list_for_class cid uc up c st).2.upstream_calls := by
  simp only [get_sensors_list_for_class]
  split
  · exact le_refl _
  · split
    · simp
    · split <;> simp

theorem get_sensor_classes_false_calls (cid : String) (up : Upstream) (st : ClientState) :
    st.upstream_calls + 1 ≤ (get_sensor_classes cid false up st).2.upstream_calls := by
  simp only [get_sensor_classes, if_neg (Bool.false_ne_true)]
  split <;> simp

theorem get_sensors_list_false_calls (cid : String) (up : Upstream) (c : String)
    (st : ClientState) :
    st.upstream_calls + 1 ≤ (get_sensors_list_for_class cid false up c st).2.upstream_calls := by
  simp only [get_sensors_list_for_class, if_neg (Bool.false_ne_true)]
  split <;> simp

theorem collect_calls_mono (cid : String) (uc : Bool) (up : Upstream) :
    ∀ (cs : List String) (st : ClientState),
    st.upstream_calls ≤ (collect_class_sensors cid uc up st cs).2.upstream_calls := by
  intro cs
  induction cs with
  | nil => intro st; exact le_refl _
  | cons c rest ih =>
    intro st
    simp only [collect_class_sensors]
    split
    · rename_i e st1 heq
      have h1 := get_sensors_list_calls cid uc up c st
      rw [heq] at h1
      exact h1
    · rename_i ss st1 heq
      have h1 := get_sensors_list_calls cid uc up c st
      rw [heq] at h1
      split
      · rename_i e2 st2 heq2
        have h2 := ih st1
        rw [heq2] at h2
        exact h1.trans h2
      · rename_i ps st2 heq2
        have h2 := ih st1
        rw [heq2] at h2
        exact h1.trans h2

theorem get_stations_error_eval (cid : String) (uc : Bool) (up : Upstream) (st : ClientState)
    (e : Unit) (st1 : ClientState)
    (hmiss : (if uc then (match getA (cid ++ "-cima-stations") st.cache with
        | some (.stationsV v) => if v.isEmpty then none else some v
        | _ => none) else none) = (none : Option (List (String × StationOut))))
    (hc : get_sensor_classes cid uc up st = (.error e, st1)) :
    get_stations cid uc up st = (.error e, st1) := by
  simp only [get_stations]
  rw [hmiss, hc]

theorem get_stations_miss_eval (cid : String) (uc : Bool) (up : Upstream) (st : ClientState)
    (cs : List String) (st1 : ClientState)
    (hmiss : (if uc then (match getA (cid ++ "-cima-stations") st.cache with
        | some (.stationsV v) => if v.isEmpty then none else some v
        | _ => none) else none) = (none : Option (List (String × StationOut))))
    (hc : get_sensor_classes cid uc up st = (.ok cs, st1)) (hne : cs.isEmpty = false) :
    get_stations cid uc up st =
      (match collect_class_sensors cid uc up st1 cs with
       | (.error e, st2) => (.error e, st2)
       | (.ok pairs, st2) =>
         if uc then
           (.ok (stationsDictOf (aggregatePairs pairs)),
             { st2 with
                cache := setA (cid ++ "-cima-stations")
                  (.stationsV (stationsDictOf (aggregatePairs pairs))) st2.cache })
         else (.ok (stationsDictOf (aggregatePairs pairs)), st2)) := by
  simp only [get_stations]
  rw [hmiss, hc]
  show (if cs.isEmpty = true then ((Except.ok ([] : List (String × StationOut))), st1)
    else match collect_class_sensors cid uc up st1 cs with
      | (.error e, st2) => (.error e, st2)
      | (.ok pairs, st2) =>
        if uc then
          (.ok (stationsDictOf (aggregatePairs pairs)),
            { st2 with
               cache := setA (cid ++ "-cima-stations")
                 (.stationsV (stationsDictOf (aggregatePairs pairs))) st2.cache })
        else (.ok (stationsDictOf (aggregatePairs pairs)), st2)) = _
  rw [hne]
  rfl

theorem getA_setA_inv {κ β : Type} [DecidableEq κ] (k k2 : κ) (v2 : β)
    (c : List (κ × β)) (w : β) (h : getA k (setA k2 v2 c) = some w) :
    (k = k2 ∧ w = v2) ∨ getA k c = some w := by
  by_cases hk : k = k2
  · subst hk
    rw [getA_setA_self] at h
    exact Or.inl ⟨rfl, (Option.some.injEq _ _ ▸ h).symm⟩
  · right
    rwa [getA_setA_ne _ _ hk] at h

theorem get_sensor_classes_cache_shape (cid : String) (uc : Bool) (up : Upstream)
    (st : ClientState) :
    (get_sensor_classes cid uc up st).2.cache = st.cache ∨
    ∃ v, (get_sensor_classes cid uc up st).2.cache =
      setA (cid ++ "-cima-sensor-classes") (.classesV v) st.cache := by
  simp only [get_sensor_classes]
  split
  · left; rfl
  · split
    · left; rfl
    · split
      · right; exact ⟨_, rfl⟩
      · left; rfl

theorem get_sensors_list_cache_shape (cid : String) (uc : Bool) (up : Upstream)
    (c : String) (st : ClientState) :
    (get_sensors_list_for_class cid uc up c st).2.cache = st.cache ∨
    ∃ v, (get_sensors_list_for_class cid uc up c st).2.cache =
      setA (cid ++ "-cima-sensor-list-class-" ++ c) (.sensorsV v) st.cache := by
  simp only [get_sensors_list_for_class]
  split
  · left; rfl
  · split
    · left; rfl
    · split
      · right; exact ⟨_, rfl⟩
      · left; rfl

theorem classes_pres (cid : String) (uc : Bool) (up : Upstream) (st : ClientState)
    (k : String) (w : CacheVal) (hw : ∀ v, w ≠ CacheVal.classesV v)
    (h : getA k (get_sensor_classes cid uc up st).2.cache = some w) :
    getA k st.cache = some w := by
  rcases get_sensor_classes_cache_shape cid uc up st with hc | ⟨v, hc⟩
  · rwa [hc] at h
  · rw [hc] at h
    rcases getA_setA_inv _ _ _ _ _ h with ⟨_, hweq⟩ | hg
    · exact absurd hweq (hw v)
    · exact hg

theorem sensors_pres (cid : String) (uc : Bool) (up : Upstream) (c : String)
    (st : ClientState) (k : String) (w : CacheVal)
    (hw : ∀ v, w ≠ CacheVal.sensorsV v)
    (h : getA k (get_sensors_list_for_class cid uc up c st).2.cache = some w) :
    getA k st.cache = some w := by
  rcases get_sensors_list_cache_shape cid uc up c st with hc | ⟨v, hc⟩
  · rwa [hc] at h
  · rw [hc] at h
    rcases getA_setA_inv _ _ _ _ _ h with ⟨_, hweq⟩ | hg
    · exact absurd hweq (hw v)
    · exact hg

theorem collect_pres (cid : String) (uc : Bool) (up : Upstream) (k : String)
    (w : CacheVal) (hw : ∀ v, w ≠ CacheVal.sensorsV v) :
    ∀ (cs : List String) (st : ClientState),
    getA k (collect_class_sensors cid uc up st cs).2.cache = some w →
    getA k st.cache = some w := by
  intro cs
  induction cs with
  | nil => intro st h; exact h
  | cons c rest ih =>
    intro st h
    simp only [collect_class_sensors] at h
    split at h
    · rename_i e st1 heq
      have h1 : getA k (get_sensors_list_for_class cid uc up c st).2.cache = some w := by
        rw [heq]; exact h
      exact sensors_pres cid uc up c st k w hw h1
    · rename_i ss st1 heq
      split at h
      · rename_i e2 st2 heq2
        have h2 : getA k (collect_class_sensors cid uc up st1 rest).2.cache = some w := by
          rw [heq2]; exact h
        have h1 : getA k (get_sensors_list_for_class cid uc up c st).2.cache = some w := by
          rw [heq]; exact ih st1 h2
        exact sensors_pres cid uc up c st k w hw h1
      · rename_i ps st2 heq2
        have h2 : getA k (collect_class_sensors cid uc up st1 rest).2.cache = some w := by
          rw [heq2]; exact h
        have h1 : getA k (get_sensors_list_for_class cid uc up c st).2.cache = some w := by
          rw [heq]; exact ih st1 h2
        exact sensors_pres cid uc up c st k w hw h1

theorem stations_pres (cid : String) (uc : Bool) (up : Upstream) (st : ClientState)
    (k : String) (w : CacheVal)
    (hw1 : ∀ v, w ≠ CacheVal.classesV v) (hw2 : ∀ v, w ≠ CacheVal.sensorsV v)
    (hw3 : ∀ v, w ≠ CacheVal.stationsV v)
    (h : getA k (get_stations cid uc up st).2.cache = some w) :
    getA k st.cache = some w := by
  simp only [get_stations] at h
  split at h
  · exact h
  · split at h
    · rename_i e st1 heq
      have h1 : getA k (get_sensor_classes cid uc up st).2.cache = some w := by
        rw [heq]; exact h
      exact classes_pres cid uc up st k w hw1 h1
    · rename_i cs st1 heq
      split at h
      · have h1 : getA k (get_sensor_classes cid uc up st).2.cache = some w := by
          rw [heq]; exact h
        exact classes_pres cid uc up st k w hw1 h1
      · split at h
        · rename_i e st2 heq2
          have h2 : getA k (collect_class_sensors cid uc up st1 cs).2.cache = some w := by
            rw [heq2]; exact h
          have h1 : getA k (get_sensor_classes cid uc up st).2.cache = some w := by
            rw [heq]; exact collect_pres cid uc up k w hw2 cs st1 h2
          exact classes_pres cid uc up st k w hw1 h1
        · rename_i pairs st2 heq2
          split at h
          · rcases getA_setA_inv _ _ _ _ _ h with ⟨_, hweq⟩ | hg
            · exact absurd hweq (hw3 _)
            · have h2 : getA k (collect_class_sensors cid uc up st1 cs).2.cache = some w := by
                rw [heq2]; exact hg
              have h1 : getA k (get_sensor_classes cid uc up st).2.cache = some w := by
                rw [heq]; exact collect_pres cid uc up k w hw2 cs st1 h2
              exact classes_pres cid uc up st k w hw1 h1
          · have h2 : getA k (collect_class_sensors cid uc up st1 cs).2.cache = some w := by
              rw [heq2]; exact h
            have h1 : getA k (get_sensor_classes cid uc up st).2.cache = some w := by
              rw [heq]; exact collect_pres cid uc up k w hw2 cs st1 h2
            exact classes_pres cid uc up st k w hw1 h1

theorem get_sensor_classes_error_cache_res (cid : String) (uc : Bool) (up : Upstream)
    (st st1 : ClientState) (e : Unit)
    (h : get_sensor_classes cid uc up st = (.error e, st1)) :
    st1.cache = st.cache := by
  simp only [get_sensor_classes] at h
  split at h
  · exact absurd (congrArg Prod.fst h) (by simp)
  · split at h
    · injection h with h1 h2
      rw [← h2]
    · split at h
      · exact absurd (congrArg Prod.fst h) (by simp)
      · exact absurd (congrArg Prod.fst h) (by simp)

theorem get_sensors_list_error_cache_res (cid : String) (uc : Bool) (up : Upstream)
    (c : String) (st st1 : ClientState) (e : Unit)
    (h : get_sensors_list_for_class cid uc up c st = (.error e, st1)) :
    st1.cache = st.cache := by
  simp only [get_sensors_list_for_class] at h
  split at h
  · exact absurd (congrArg Prod.fst h) (by simp)
  · split at h
    · injection h with h1 h2
      rw [← h2]
    · split at h
      · exact absurd (congrArg Prod.fst h) (by simp)
      · exact absurd (congrArg Prod.fst h) (by simp)

theorem get_sensor_classes_ok_getA (cid : String) (up : Upstream) (st st1 : ClientState)
    (v : List String) (h : get_sensor_classes cid true up st = (.ok v, st1)) :
    getA (cid ++ "-cima-sensor-classes") st1.cache = some (.classesV v) := by
  simp only [get_sensor_classes] at h
  split at h
  · rename_i w heq
    rw [if_pos trivial] at heq
    split at heq
    · rename_i v2 hg
      split at heq
      · exact absurd heq (by simp)
      · injection heq with hvw
        injection h with h1 h2
        injection h1 with h1
        rw [← h2, ← h1, ← hvw]
        exact hg
    · exact absurd heq (by simp)
  · split at h
    · exact absurd (congrArg Prod.fst h) (by simp)
    · split at h
      · injection h with h1 h2
        injection h1 with h1
        rw [← h2, ← h1]
        exact getA_setA_self _ _ _
      · rename_i hnc
        exact absurd trivial hnc

theorem get_sensors_list_ok_getA (cid : String) (up : Upstream) (c : String)
    (st st1 : ClientState) (v : List RawSensor)
    (h : get_sensors_list_for_class cid true up c st = (.ok v, st1)) :
    getA (cid ++ "-cima-sensor-list-class-" ++ c) st1.cache = some (.sensorsV v) := by
  simp only [get_sensors_list_for_class] at h
  split at h
  · rename_i w heq
    rw [if_pos trivial] at heq
    split at heq
    · rename_i v2 hg
      injection heq with hvw
      injection h with h1 h2
      injection h1 with h1
      rw [← h2, ← h1, ← hvw]
      exact hg
    · exact absurd heq (by simp)
  · split at h
    · exact absurd (congrArg Prod.fst h) (by simp)
    · split at h
      · injection h with h1 h2
        injection h1 with h1
        rw [← h2, ← h1]
        exact getA_setA_self _ _ _
      · rename_i hnc
        exact absurd trivial hnc

theorem get_stations_ok_getA (cid : String) (up : Upstream) (st st1 : ClientState)
    (d : List (String × StationOut)) (h : get_stations cid true up st = (.ok d, st1))
    (hne : d.isEmpty = false) :
    getA (cid ++ "-cima-stations") st1.cache = some (.stationsV d) := by
  simp only [get_stations] at h
  split at h
  · rename_i w heq
    rw [if_pos trivial] at heq
    split at heq
    · rename_i v2 hg
      split at heq
      · exact absurd heq (by simp)
      · injection heq with hvw
        injection h with h1 h2
        injection h1 with h1
        rw [← h2, ← h1, ← hvw]
        exact hg
    · exact absurd heq (by simp)
  · split at h
    · exact absurd (congrArg Prod.fst h) (by simp)
    · rename_i cs st1x heq
      split at h
      · injection h with h1 h2
        injection h1 with h1
        rw [← h1] at hne
        exact absurd hne (by simp)
      · split at h
        · exact absurd (congrArg Prod.fst h) (by simp)
        · split at h
          · injection h with h1 h2
            injection h1 with h1
            rw [← h2, ← h1]
            exact getA_setA_self _ _ _
          · rename_i hnc
            exact absurd trivial hnc

theorem get_station_parameters_ok_getA (cid : String) (up : Upstream) (sid : String)
    (st st1 : ClientState) (ps : List ParamOut)
    (h : get_station_parameters cid true up sid st = (.ok ps, st1))
    (hne : ps.isEmpty = false) :
    getA (cid ++ "-cima-station-params-" ++ sid) st1.cache = some (.paramsV ps) := by
  simp only [get_station_parameters] at h
  split at h
  · rename_i w heq
    rw [if_pos trivial] at heq
    split at heq
    · rename_i v2 hg
      split at heq
      · exact absurd heq (by simp)
      · injection heq with hvw
        injection h with h1 h2
        injection h1 with h1
        rw [← h2, ← h1, ← hvw]
        exact hg
    · exact absurd heq (by simp)
  · split at h
    · exact absurd (congrArg Prod.fst h) (by simp)
    · rename_i stations st1x heq
      split at h
      · injection h with h1 h2
        injection h1 with h1
        rw [← h1] at hne
        exact absurd hne (by simp)
      · split at h
        · injection h with h1 h2
          injection h1 with h1
          rw [← h2, ← h1]
          exact getA_setA_self _ _ _
        · rename_i hnc
          exact absurd trivial hnc

theorem get_stations_error_pres (cid : String) (uc : Bool) (up : Upstream)
    (st st1 : ClientState) (e : Unit) (h : get_stations cid uc up st = (.error e, st1))
    (k : String) (d : List (String × StationOut))
    (hg : getA k st1.cache = some (.stationsV d)) :
    getA k st.cache = some (.stationsV d) := by
  simp only [get_stations] at h
  split at h
  · exact absurd (congrArg Prod.fst h) (by simp)
  · split at h
    · rename_i e2 st1x heq
      injection h with h1 h2
      have hc : getA k (get_sensor_classes cid uc up st).2.cache =
          some (.stationsV d) := by
        rw [heq, h2]
        exact hg
      exact classes_pres cid uc up st k _ (by intro v hv; cases hv) hc
    · rename_i cs st1x heq
      split at h
      · exact absurd (congrArg Prod.fst h) (by simp)
      · split at h
        · rename_i e2 st2 heq2
          injection h with h1 h2
          have hc2 : getA k (collect_class_sensors cid uc up st1x cs).2.cache =
              some (.stationsV d) := by
            rw [heq2, h2]
            exact hg
          have hc : getA k (get_sensor_classes cid uc up st).2.cache =
              some (.stationsV d) := by
            rw [heq]
            exact collect_pres cid uc up k _ (by intro v hv; cases hv) cs st1x hc2
          exact classes_pres cid uc up st k _ (by intro v hv; cases hv) hc
        · split at h
          · exact absurd (congrArg Prod.fst h) (by simp)
          · exact absurd (congrArg Prod.fst h) (by simp)

theorem get_station_parameters_error_pres (cid : String) (uc : Bool) (up : Upstream)
    (sid : String) (st st1 : ClientState) (e : Unit)
    (h : get_station_parameters cid uc up sid st = (.error e, st1))
    (k : String) (ps : List ParamOut)
    (hg : getA k st1.cache = some (.paramsV ps)) :
    getA k st.cache = some (.paramsV ps) := by
  simp only [get_station_parameters] at h
  split at h
  · exact absurd (congrArg Prod.fst h) (by simp)
  · split at h
    · rename_i e2 st1x heq
      injection h with h1 h2
      have hc : getA k (get_stations cid uc up st).2.cache = some (.paramsV ps) := by
        rw [heq, h2]
        exact hg
      exact stations_pres cid uc up st k _ (by intro v hv; cases hv)
        (by intro v hv; cases hv) (by intro v hv; cases hv) hc
    · rename_i stations st1x heq
      split at h
      · exact absurd (congrArg Prod.fst h) (by simp)
      · split at h
        · exact absurd (congrArg Prod.fst h) (by simp)
        · exact absurd (congrArg Prod.fst h) (by simp)

theorem get_sensor_classes_cached_second (cid : String) (up : Upstream)
    (st st1 : ClientState) (v : List String)
    (h : get_sensor_classes cid true up st = (.ok v, st1)) (hne : v.isEmpty = false) :
    get_sensor_classes cid true up st1 = (.ok v, st1) := by
  have hg := get_sensor_classes_ok_getA cid up st st1 v h
  simp [get_sensor_classes, hg, hne]

theorem get_sensors_list_cached_second (cid : String) (up : Upstream) (c : String)
    (st st1 : ClientState) (v : List RawSensor)
    (h : get_sensors_list_for_class cid true up c st = (.ok v, st1)) :
    get_sensors_list_for_class cid true up c st1 = (.ok v, st1) := by
  have hg := get_sensors_list_ok_getA cid up c st st1 v h
  simp [get_sensors_list_for_class, hg]

theorem get_stations_cached_second (cid : String) (up : Upstream)
    (st st1 : ClientState) (d : List (String × StationOut))
    (h : get_stations cid true up st = (.ok d, st1)) (hne : d.isEmpty = false) :
    get_stations cid true up st1 = (.ok d, st1) := by
  have hg := get_stations_ok_getA cid up st st1 d h hne
  simp [get_stations, hg, hne]

theorem get_station_parameters_cached_second (cid : String) (up : Upstream)
    (sid : String) (st st1 : ClientState) (ps : List ParamOut)
    (h : get_station_parameters cid true up sid st = (.ok ps, st1))
    (hne : ps.isEmpty = false) :
    get_station_parameters cid true up sid st1 = (.ok ps, st1) := by
  have hg := get_station_parameters_ok_getA cid up sid st st1 ps h hne
  simp [get_station_parameters, hg, hne]

theorem get_stations_false_calls (cid : String) (up : Upstream) (st : ClientState) :
    st.upstream_calls + 1 ≤ (get_stations cid false up st).2.upstream_calls := by
  simp only [get_stations, if_neg (Bool.false_ne_true)]
  split
  · rename_i e st1 heq
    have h1 := get_sensor_classes_false_calls cid up st
    rw [heq] at h1
    exact h1
  · rename_i cs st1 heq
    have h1 := get_sensor_classes_false_calls cid up st
    rw [heq] at h1
    split
    · exact h1
    · split
      · rename_i e st2 heq2
        have h2 := collect_calls_mono cid false up cs st1
        rw [heq2] at h2
        exact h1.trans h2
      · rename_i pairs st2 heq2
        have h2 := collect_calls_mono cid false up cs st1
        rw [heq2] at h2
        exact h1.trans h2

theorem get_station_parameters_false_calls (cid : String) (up : Upstream) (sid : String)
    (st : ClientState) :
    st.upstream_calls + 1 ≤ (get_station_parameters cid false up sid st).2.upstream_calls := by
  simp only [get_station_parameters, if_neg (Bool.false_ne_true)]
  split
  · rename_i e st1 heq
    have h1 := get_stations_false_calls cid up st
    rw [heq] at h1
    exact h1
  · rename_i stations st1 heq
    have h1 := get_stations_false_calls cid up st
    rw [heq] at h1
    split
    · exact h1
    · exact h1

/-- C6 (amended): cache discipline of the four cacheable listing
operations.  With caching enabled a second identical call is served
from the cache and changes nothing — unconditionally for the
per-class sensor list (its cache test is `value is not None`,
client.py 77-80), but for sensor classes, the station directory and
the station parameters only when the first result is non-empty,
because their cache test is Python truthiness of `cache.get(key)`
(client.py 59, 189, 217), so a cached empty listing is re-fetched.
With caching disabled every call issues at least one upstream
request, and an errored call never stores its own cache entry. -/
theorem C6_cache_discipline (cid sc sid : String) (up : Upstream) (st : ClientState) :
    (∀ (v : List RawSensor) (st1 : ClientState),
      get_sensors_list_for_class cid true up sc st = (.ok v, st1) →
      get_sensors_list_for_class cid true up sc st1 = (.ok v, st1)) ∧
    (∀ (v : List String) (st1 : ClientState),
      get_sensor_classes cid true up st = (.ok v, st1) → v.isEmpty = false →
      get_sensor_classes cid true up st1 = (.ok v, st1)) ∧
    (∀ (d : List (String × StationOut)) (st1 : ClientState),
      get_stations cid true up st = (.ok d, st1) → d.isEmpty = false →
      get_stations cid true up st1 = (.ok d, st1)) ∧
    (∀ (ps : List ParamOut) (st1 : ClientState),
      get_station_parameters cid true up sid st = (.ok ps, st1) → ps.isEmpty = false →
      get_station_parameters cid true up sid st1 = (.ok ps, st1)) ∧
    st.upstream_calls + 1 ≤ (get_sensor_classes cid false up st).2.upstream_calls ∧
    st.upstream_calls + 1 ≤ (get_sensors_list_for_class cid false up sc st).2.upstream_calls ∧
    st.upstream_calls + 1 ≤ (get_stations cid false up st).2.upstream_calls ∧
    st.upstream_calls + 1 ≤ (get_station_parameters cid false up sid st).2.upstream_calls ∧
    (∀ (e : Unit) (st1 : ClientState),
      get_sensor_classes cid true up st = (.error e, st1) → st1.cache = st.cache) ∧
    (∀ (e : Unit) (st1 : ClientState),
      get_sensors_list_for_class cid true up sc st = (.error e, st1) →
      st1.cache = st.cache) ∧
    (∀ (e : Unit) (st1 : ClientState) (k : String) (d : List (String × StationOut)),
      get_stations cid true up st = (.error e, st1) →
      getA k st1.cache = some (.stationsV d) → getA k st.cache = some (.stationsV d)) ∧
    (∀ (e : Unit) (st1 : ClientState) (k : String) (ps : List ParamOut),
      get_station_parameters cid true up sid st = (.error e, st1) →
      getA k st1.cache = some (.paramsV ps) → getA k st.cache = some (.paramsV ps)) := by
  refine ⟨?_, ?_, ?_, ?_, ?_, ?_, ?_, ?_, ?_, ?_, ?_, ?_⟩
  · intro v st1 h
    exact get_sensors_list_cached_second cid up sc st st1 v h
  · intro v st1 h hne
    exact get_sensor_classes_cached_second cid up st st1 v h hne
  · intro d st1 h hne
    exact get_stations_cached_second cid up st st1 d h hne
  · intro ps st1 h hne
    exact get_station_parameters_cached_second cid up sid st st1 ps h hne
  · exact get_sensor_classes_false_calls cid up st
  · exact get_sensors_list_false_calls cid up sc st
  · exact get_stations_false_calls cid up st
  · exact get_station_parameters_false_calls cid up sid st
  · intro e st1 h
    exact get_sensor_classes_error_cache_res cid true up st st1 e h
  · intro e st1 h
    exact get_sensors_list_error_cache_res cid true up sc st st1 e h
  · intro e st1 k d h hg
    exact get_stations_error_pres cid true up st st1 e h k d hg
  · intro e st1 k ps h hg
    exact get_station_parameters_error_pres cid true up sid st st1 e h k ps hg

/-- Counterexample to the unamended C6: with caching enabled, a first
successful `get_sensor_classes` call on an upstream returning the
empty class list populates the cache, yet the second identical call
still issues an upstream request (the truthiness test rejects the
cached empty list), so its call counter reaches 2. -/
theorem C6_counterexample :
    get_sensor_classes "c" true upEmpty ⟨[], 0⟩ =
      (.ok [], ⟨[("c" ++ "-cima-sensor-classes", CacheVal.classesV [])], 1⟩) ∧
    get_sensor_classes "c" true upEmpty
        ⟨[("c" ++ "-cima-sensor-classes", CacheVal.classesV [])], 1⟩ =
      (.ok [], ⟨[("c" ++ "-cima-sensor-classes", CacheVal.classesV [])], 2⟩) := by
  constructor
  · decide
  · decide

/-- Witness for C6 on the one-class upstream: the second
`get_sensor_classes` call is answered from the cache entry written by
the first call, with the state unchanged. -/
theorem C6_cache_discipline_witness :
    get_sensor_classes "c" true upOne
        ⟨[("c" ++ "-cima-sensor-classes", CacheVal.classesV ["TERMOMETRO"])], 1⟩ =
      (.ok ["TERMOMETRO"],
        ⟨[("c" ++ "-cima-sensor-classes", CacheVal.classesV ["TERMOMETRO"])], 1⟩) :=
  (C6_cache_discipline "c" "TERMOMETRO" "x" upOne ⟨[], 0⟩).2.1 ["TERMOMETRO"]
    ⟨[("c" ++ "-cima-sensor-classes", CacheVal.classesV ["TERMOMETRO"])], 1⟩
    (by decide) (by decide)
